import Mathlib

/-!
Verification development for the azure-diagram MCP server.

This file gives a shallow embedding, in Lean, of the pure computational core of
the repository:

* the graph-edit engine of `server.py` (`_normalize_graph_model`,
  `_dedupe_edges`, `_sync_resource_dependencies`, `_apply_graph_edit_intent`,
  `mcp_apply_edit`),
* the security scanner of `scanner.py` (`check_dangerous_functions`,
  `validate_syntax`, `check_security`, `scan_python_code`) over a model of the
  Python AST,
* the pre-execution portion of `generate_diagram` of `diagram_tools.py`
  (the security gate and output-format validation) and the textual rewriting
  `_ensure_show_false`,
* the Bicep graph parser of `bicep_tools.py` (`_extract_resource_blocks`,
  `parse_bicep_graph`).

Python dict payloads are modelled by records whose optional string fields are
`Option String` (absent or non-string values are `none`); machine strings are
Lean `String`s.  Python's `str.strip` / `str.lower` / `str.splitlines` are
re-implemented below over `List Char` (ASCII whitespace; the unicode-whitespace
corner of `str.strip` is irrelevant to every claim and input considered here).
The external `bandit` linter invoked by `check_security` is an optional
collaborator whose failures are swallowed by the code; it is modelled as
unavailable (contributing no findings), the degraded-coverage mode the code
itself supports.
-/

/-! ## Python-style string primitives -/

/-- ASCII whitespace recognised by Python's default `str.strip` and by `\s`
in the `re` patterns used by the repository. -/
def pyIsSpace (c : Char) : Bool :=
  c == ' ' || c == '\t' || c == '\n' || c == '\r' || c == '\x0b' || c == '\x0c'

/-- `str.strip()` on the character list: drop whitespace from both ends. -/
def pystripList (cs : List Char) : List Char :=
  ((cs.dropWhile pyIsSpace).reverse.dropWhile pyIsSpace).reverse

/-- Python `s.strip()`. -/
def pystrip (s : String) : String :=
  String.mk (pystripList s.data)

/-- Python `s.lower()` (ASCII case folding). -/
def lowerStr (s : String) : String :=
  String.mk (s.data.map Char.toLower)

/-- Python `pat in s` (substring containment), implemented by scanning. -/
def listContainsSub (pat : List Char) : List Char → Bool
  | [] => pat.isPrefixOf []
  | c :: cs => pat.isPrefixOf (c :: cs) || listContainsSub pat cs

/-- Python `pat in s` on strings. -/
def strContains (s pat : String) : Bool :=
  listContainsSub pat.data s.data

/-- Python `s.splitlines()` restricted to the `\n` / `\r\n` / `\r` line
terminators (the only ones occurring in the sources considered). -/
def splitLinesAux : List Char → List Char → List (List Char)
  | [], acc => if acc.isEmpty then [] else [acc.reverse]
  | '\r' :: '\n' :: rest, acc => acc.reverse :: splitLinesAux rest []
  | '\r' :: rest, acc => acc.reverse :: splitLinesAux rest []
  | '\n' :: rest, acc => acc.reverse :: splitLinesAux rest []
  | c :: rest, acc => splitLinesAux rest (c :: acc)

/-- Python `s.splitlines()` as a list of strings. -/
def splitLines (s : String) : List String :=
  (splitLinesAux s.data []).map String.mk

/-- Lexicographic comparison of character lists by code point — exactly
Python's string ordering. -/
def lexLe : List Char → List Char → Bool
  | [], _ => true
  | _ :: _, [] => false
  | a :: as, b :: bs =>
    if a.toNat < b.toNat then true
    else if b.toNat < a.toNat then false
    else lexLe as bs

/-- Python `a <= b` on strings. -/
def pyStrLe (a b : String) : Bool := lexLe a.data b.data

/-- Python `sorted(set(l))` for a list of strings: the ascending,
duplicate-free enumeration of the elements of `l` (ascending in the
code-point order Python sorts by). -/
def sortedDistinct (l : List String) : List String :=
  List.insertionSort (fun a b => pyStrLe a b = true) l.dedup

/-! ## Graph data model (`server.py`) -/

/-- A resource node of a graph model payload.  The Python payloads are dicts;
the fields below are the ones read and written by the edit engine (extra keys
such as the parser's `line` metadata are carried through the Python code
untouched and are not modelled, since no behaviour depends on them). -/
structure ResourceNode where
  symbolicName : String
  resourceType : String
  dependsOn : List String
deriving DecidableEq, Repr

/-- A dependency edge `from → to` of a graph model payload. -/
structure DependencyEdge where
  fromName : String
  toName : String
  kind : String
deriving DecidableEq, Repr

/-- A graph model payload (`status`, `message`, `resources`, `edges`,
`unresolvedDependencies`). -/
structure GraphModel where
  status : String
  message : String
  resources : List ResourceNode
  edges : List DependencyEdge
  unresolvedDependencies : List String
deriving DecidableEq, Repr

/-- The symbolic names of a resource list (Python: the set comprehension
`\x7br.get('symbolicName') for r in resources\x7d`, as a list). -/
def symbolsOf (rs : List ResourceNode) : List String :=
  rs.map (·.symbolicName)

/-- `sorted(\x7be['from'] for e in edges if e['from'] not in symbols\x7d)`:
the sorted distinct edge sources that name no resource. -/
def unresolvedOf (rs : List ResourceNode) (es : List DependencyEdge) : List String :=
  sortedDistinct ((es.map (·.fromName)).filter (fun f => decide (f ∉ symbolsOf rs)))

/-- Normalization of one resource inside `_normalize_graph_model`: a resource
with a blank symbolic name or blank type is dropped, otherwise both fields are
stripped (non-string fields of the Python payload behave like blanks and are
likewise dropped). -/
def normalizeResource (r : ResourceNode) : Option ResourceNode :=
  if pystrip r.symbolicName = "" then none
  else if pystrip r.resourceType = "" then none
  else some { r with symbolicName := pystrip r.symbolicName,
                     resourceType := pystrip r.resourceType }

/-- Normalization of one edge inside `_normalize_graph_model`: blank `from`
or `to` drops the edge, endpoints are stripped, and a blank (or, in Python,
non-string) `kind` defaults to `"dependsOn"`. -/
def normalizeEdge (e : DependencyEdge) : Option DependencyEdge :=
  if pystrip e.fromName = "" then none
  else if pystrip e.toName = "" then none
  else some { fromName := pystrip e.fromName, toName := pystrip e.toName,
              kind := if pystrip e.kind = "" then "dependsOn" else pystrip e.kind }

/-- `_normalize_graph_model`: coerce an externally supplied graph payload into
a valid shape and recompute `unresolvedDependencies`.  A non-string `status`
(resp. `message`) becomes `'success'` (resp. `''`) in Python; string-typed
fields, the only ones representable here, pass through unchanged. -/
def normalizeGraphModel (g : GraphModel) : GraphModel :=
  let rs := g.resources.filterMap normalizeResource
  let es := g.edges.filterMap normalizeEdge
  { status := g.status, message := g.message, resources := rs, edges := es,
    unresolvedDependencies := unresolvedOf rs es }

/-- The deduplication key of an edge. -/
def edgeKey (e : DependencyEdge) : String × String × String :=
  (e.fromName, e.toName, e.kind)

/-- Worker of `_dedupe_edges`, carrying the `seen_edges` set of keys. -/
def dedupeEdgesGo : List DependencyEdge → List (String × String × String) → List DependencyEdge
  | [], _ => []
  | e :: rest, seen =>
    if edgeKey e ∈ seen then dedupeEdgesGo rest seen
    else ⟨e.fromName, e.toName, e.kind⟩ :: dedupeEdgesGo rest (edgeKey e :: seen)

/-- `_dedupe_edges`: drop later edges whose `(from, to, kind)` triple was
already seen, rebuilding each kept edge from exactly those three fields. -/
def dedupeEdges (es : List DependencyEdge) : List DependencyEdge :=
  dedupeEdgesGo es []

/-- The `dependsOn` list `_sync_resource_dependencies` computes for a resource
holding a given symbolic name: the froms of edges targeting it (Python collects
them first-seen-deduplicated, a step absorbed by the final `sorted(set(...))`),
stripped, blanks dropped, then sorted and deduplicated. -/
def syncedDependsOn (symbol : String) (es : List DependencyEdge) : List String :=
  sortedDistinct
    ((((es.filter (fun e => e.toName == symbol && e.fromName != "")).map
        (·.fromName)).map pystrip).filter (fun d => d != ""))

/-- Whether a later resource in the list shares this symbolic name.  Python's
`resources_by_symbol` dict maps each name to the *last* resource carrying it,
so earlier duplicates never receive any collected dependency. -/
def shadowedLater (rest : List ResourceNode) (name : String) : Bool :=
  rest.any (fun r => r.symbolicName == name)

/-- `_sync_resource_dependencies`: reset every `dependsOn`, collect edge
sources into the last resource of each symbolic name, then sort/deduplicate.
Earlier resources sharing a name with a later one end with an empty list
(the recursion's tail is exactly the suffix after the current position). -/
def syncResourceDependencies (rs : List ResourceNode) (es : List DependencyEdge) :
    List ResourceNode :=
  match rs with
  | [] => []
  | r :: rest =>
    (if shadowedLater rest r.symbolicName then { r with dependsOn := [] }
     else { r with dependsOn := syncedDependsOn r.symbolicName es }) ::
      syncResourceDependencies rest es

/-! ## Edit intents and selections (`server.py`) -/

/-- The `edit_intent.resource` payload of an `add_resource` intent. -/
structure AddResourcePayload where
  symbolicName : Option String := none
  resourceType : Option String := none
  dependsOn : List String := []
deriving DecidableEq, Repr

/-- An `edit_intent` payload; absent or non-string fields are `none`
(`dependsOn` entries pass through Python's `str`, so a list of strings). -/
structure EditIntent where
  action : Option String := none
  symbolicName : Option String := none
  newSymbolicName : Option String := none
  resourceType : Option String := none
  resource : Option AddResourcePayload := none
  fromName : Option String := none
  toName : Option String := none
  edgeKind : Option String := none
deriving DecidableEq, Repr

/-- A `selected_component` / selection payload (`componentKind` plus the
fields relevant to that kind). -/
structure SelectionPayload where
  componentKind : String
  symbolicName : Option String := none
  fromName : Option String := none
  toName : Option String := none
  edgeKind : Option String := none
deriving DecidableEq, Repr

/-- `_normalize_selected_component`: validate and strip a selection payload,
yielding `none` for anything malformed. -/
def normalizeSelectedComponent : Option SelectionPayload → Option SelectionPayload
  | none => none
  | some sc =>
    let ck := lowerStr (pystrip sc.componentKind)
    if ck = "resource" then
      match sc.symbolicName with
      | some sn =>
        if pystrip sn = "" then none
        else some { componentKind := "resource", symbolicName := some (pystrip sn) }
      | none => none
    else if ck = "edge" then
      match sc.fromName, sc.toName with
      | some f, some t =>
        if pystrip f = "" || pystrip t = "" then none
        else
          some { componentKind := "edge", fromName := some (pystrip f),
                 toName := some (pystrip t),
                 edgeKind := some (match sc.edgeKind with
                   | some k => if pystrip k = "" then "dependsOn" else pystrip k
                   | none => "dependsOn") }
      | _, _ => none
    else none

/-- The `normalized_intent` dict built by `_apply_graph_edit_intent`
(the `resource` sub-dict is flattened into three fields). -/
structure NormalizedEditIntent where
  action : String := ""
  symbolicName : Option String := none
  newSymbolicName : Option String := none
  resourceType : Option String := none
  resourceSymbolicName : Option String := none
  resourceResourceType : Option String := none
  resourceDependsOn : Option (List String) := none
  fromName : Option String := none
  toName : Option String := none
  edgeKind : Option String := none
deriving DecidableEq, Repr

/-- Python's `isinstance(x, str) and x.strip()` guard: keep the original
string only when its strip is non-empty. -/
def optNonblank : Option String → Option String
  | some s => if pystrip s = "" then none else some s
  | none => none

/-- Resolution of `symbolic_name` at the top of `_apply_graph_edit_intent`:
the intent field when present and non-blank, otherwise the (already stripped)
name of a resource-kind selection; the result is stripped. -/
def resolveSymbolicName (intent : EditIntent) (nsel : Option SelectionPayload) :
    Option String :=
  let base := match optNonblank intent.symbolicName with
    | some s => some s
    | none =>
      match nsel with
      | some sc => if sc.componentKind = "resource" then sc.symbolicName else none
      | none => none
  base.map pystrip

/-- Outcome of one action branch: an error message, or the updated working
copies of resources and edges together with the normalized intent. -/
abbrev ActionResult :=
  Except String (List ResourceNode × List DependencyEdge × NormalizedEditIntent)

/-- The `add_resource` branch of `_apply_graph_edit_intent`. -/
def actionAddResource (resources : List ResourceNode) (edges : List DependencyEdge)
    (intent : EditIntent) (ni : NormalizedEditIntent) : ActionResult :=
  match intent.resource with
  | none => .error "edit_intent.resource is required for add_resource."
  | some rp =>
    match optNonblank rp.symbolicName, optNonblank rp.resourceType with
    | none, _ => .error "resource.symbolicName is required."
    | some _, none => .error "resource.resourceType is required."
    | some sym0, some ty0 =>
      let sym := pystrip sym0
      let ty := pystrip ty0
      if resources.any (fun r => r.symbolicName == sym) then
        .error ("Resource \"" ++ sym ++ "\" already exists in graph_model.resources.")
      else
        let deps := rp.dependsOn.foldl (fun acc d =>
          let n := pystrip d
          if n != "" && !acc.contains n then acc ++ [n] else acc) []
        .ok (resources ++ [⟨sym, ty, []⟩],
             edges ++ deps.map (fun d => ⟨d, sym, "dependsOn"⟩),
             { ni with resourceSymbolicName := some sym,
                       resourceResourceType := some ty,
                       resourceDependsOn := some deps })

/-- The `remove_resource` branch of `_apply_graph_edit_intent`. -/
def actionRemoveResource (resources : List ResourceNode) (edges : List DependencyEdge)
    (symName : Option String) (ni : NormalizedEditIntent) : ActionResult :=
  match symName with
  | none => .error "edit_intent.symbolicName is required for remove_resource."
  | some sym =>
    if !resources.any (fun r => r.symbolicName == sym) then
      .error ("Resource \"" ++ sym ++ "\" was not found.")
    else
      .ok (resources.filter (fun r => r.symbolicName != sym),
           edges.filter (fun e => e.fromName != sym && e.toName != sym),
           { ni with symbolicName := some sym })

/-- In-place type update of the *first* resource matching the name
(Python's `next(...)` grabs the first matching dict and mutates it). -/
def setTypeFirst (sym ty : String) : List ResourceNode → List ResourceNode
  | [] => []
  | r :: rest =>
    if r.symbolicName == sym then { r with resourceType := ty } :: rest
    else r :: setTypeFirst sym ty rest

/-- The `set_resource_type` branch of `_apply_graph_edit_intent`. -/
def actionSetResourceType (resources : List ResourceNode) (edges : List DependencyEdge)
    (symName : Option String) (intent : EditIntent) (ni : NormalizedEditIntent) :
    ActionResult :=
  match symName with
  | none => .error "edit_intent.symbolicName is required for set_resource_type."
  | some sym =>
    match optNonblank intent.resourceType with
    | none => .error "edit_intent.resourceType is required for set_resource_type."
    | some ty0 =>
      let ty := pystrip ty0
      if !resources.any (fun r => r.symbolicName == sym) then
        .error ("Resource \"" ++ sym ++ "\" was not found.")
      else
        .ok (setTypeFirst sym ty resources, edges,
             { ni with symbolicName := some sym, resourceType := some ty })

/-- Endpoint rewriting of one edge during `rename_resource`. -/
def renameEdgeEndpoints (oldName newName : String) (e : DependencyEdge) :
    DependencyEdge :=
  let e1 := if e.fromName == oldName then { e with fromName := newName } else e
  if e1.toName == oldName then { e1 with toName := newName } else e1

/-- The `rename_resource` branch of `_apply_graph_edit_intent`. -/
def actionRenameResource (resources : List ResourceNode) (edges : List DependencyEdge)
    (symName : Option String) (intent : EditIntent) (ni : NormalizedEditIntent) :
    ActionResult :=
  match symName with
  | none => .error "edit_intent.symbolicName is required for rename_resource."
  | some sym =>
    match optNonblank intent.newSymbolicName with
    | none => .error "edit_intent.newSymbolicName is required for rename_resource."
    | some newName0 =>
      let newName := pystrip newName0
      if resources.any (fun r => r.symbolicName == newName && r.symbolicName != sym) then
        .error ("Resource \"" ++ newName ++ "\" already exists in graph_model.resources.")
      else if !resources.any (fun r => r.symbolicName == sym) then
        .error ("Resource \"" ++ sym ++ "\" was not found.")
      else
        .ok (resources.map (fun r =>
               if r.symbolicName == sym then { r with symbolicName := newName } else r),
             edges.map (renameEdgeEndpoints sym newName),
             { ni with symbolicName := some sym, newSymbolicName := some newName })

/-- The `edge_from` resolution of the dependency branch: the intent's `from`
when present and non-blank, else the `from` of an edge-kind selection. -/
def resolveEdgeFrom (intent : EditIntent) (nsel : Option SelectionPayload) :
    Option String :=
  match optNonblank intent.fromName with
  | some s => some s
  | none =>
    match nsel with
    | some sc => if sc.componentKind = "edge" then sc.fromName else none
    | none => none

/-- The `edge_to` resolution of the dependency branch: the intent's `to` when
present and non-blank, else the `to` of an edge-kind selection, else the
resolved `symbolic_name`. -/
def resolveEdgeTo (intent : EditIntent) (nsel : Option SelectionPayload)
    (symName : Option String) : Option String :=
  match optNonblank intent.toName with
  | some s => some s
  | none =>
    match nsel with
    | some sc => if sc.componentKind = "edge" then sc.toName else symName
    | none => symName

/-- The shared `add_dependency` / `remove_dependency` branch of
`_apply_graph_edit_intent` (`isAdd` selects which). -/
def actionDependency (isAdd : Bool) (resources : List ResourceNode)
    (edges : List DependencyEdge) (symName : Option String) (intent : EditIntent)
    (nsel : Option SelectionPayload) (ni : NormalizedEditIntent) : ActionResult :=
  match resolveEdgeFrom intent nsel with
  | none => .error "edit_intent.from is required for dependency edits."
  | some f1 =>
    match resolveEdgeTo intent nsel symName with
    | none => .error "edit_intent.to is required for dependency edits."
    | some t1 =>
      let f := pystrip f1
      let t := pystrip t1
      let k := match optNonblank intent.edgeKind with
        | some k0 => pystrip k0
        | none => "dependsOn"
      let key := (f, t, k)
      let ni2 := { ni with fromName := some f, toName := some t, edgeKind := some k }
      if isAdd then
        if !edges.any (fun e => decide (edgeKey e = key)) then
          .ok (resources, edges ++ [⟨f, t, k⟩], ni2)
        else
          .ok (resources, edges, ni2)
      else
        .ok (resources, edges.filter (fun e => decide (edgeKey e ≠ key)), ni2)

/-- Dispatch over the action vocabulary of `_apply_graph_edit_intent`. -/
def applyEditAction (action : String) (resources : List ResourceNode)
    (edges : List DependencyEdge) (intent : EditIntent)
    (nsel : Option SelectionPayload) : ActionResult :=
  let ni : NormalizedEditIntent := { action := action }
  let symName := resolveSymbolicName intent nsel
  if action = "add_resource" then actionAddResource resources edges intent ni
  else if action = "remove_resource" then actionRemoveResource resources edges symName ni
  else if action = "set_resource_type" then
    actionSetResourceType resources edges symName intent ni
  else if action = "rename_resource" then
    actionRenameResource resources edges symName intent ni
  else if action = "add_dependency" then
    actionDependency true resources edges symName intent nsel ni
  else if action = "remove_dependency" then
    actionDependency false resources edges symName intent nsel ni
  else
    .error ("Unsupported edit_intent.action. Supported values: add_resource, " ++
      "remove_resource, set_resource_type, rename_resource, add_dependency, " ++
      "remove_dependency.")

/-- The success epilogue of `_apply_graph_edit_intent`: dedupe edges, re-derive
every `dependsOn`, recompute `unresolvedDependencies` and stamp the message. -/
def buildSuccessGraph (action : String) (rs : List ResourceNode)
    (es : List DependencyEdge) : GraphModel :=
  let es2 := dedupeEdges es
  let rs2 := syncResourceDependencies rs es2
  { status := "success",
    message := "Applied edit action \"" ++ action ++ "\".",
    resources := rs2, edges := es2,
    unresolvedDependencies := unresolvedOf rs2 es2 }

/-- `_apply_graph_edit_intent`: normalize the graph, gate on `status`, resolve
and run the action, and on success rebuild the graph; every error path returns
the normalized input graph untouched.  (The Python `edit_intent must be an
object.` branch guards non-dict payloads, which the record type excludes.) -/
def applyGraphEditIntent (g : GraphModel) (intent : EditIntent)
    (sel : Option SelectionPayload) :
    GraphModel × NormalizedEditIntent × Option String :=
  let ng := normalizeGraphModel g
  if ng.status ≠ "success" then
    (ng, {}, some "graph_model.status must be \"success\" to apply edits.")
  else
    match optNonblank intent.action with
    | none => (ng, {}, some "edit_intent.action is required.")
    | some a0 =>
      let action := lowerStr (pystrip a0)
      let nsel := normalizeSelectedComponent sel
      match applyEditAction action ng.resources ng.edges intent nsel with
      | .error e => (ng, { action := action }, some e)
      | .ok (rs, es, ni) => (buildSuccessGraph action rs es, ni, none)

/-- The response of the `apply_edit` tool (`mcp_apply_edit`); the `graphDiff`
field of the Python response is not modelled (no claim concerns it). -/
structure ApplyEditToolResult where
  status : String
  message : String
  selectedComponent : Option SelectionPayload
  editIntent : NormalizedEditIntent
  graphModel : GraphModel
deriving DecidableEq, Repr

/-- `mcp_apply_edit`: normalize the payloads, apply the intent, and answer
with the next graph on success or with the normalized *previous* graph on
error. -/
def mcpApplyEdit (g : GraphModel) (intent : EditIntent)
    (sel : Option SelectionPayload) : ApplyEditToolResult :=
  let previous := normalizeGraphModel g
  let nsel := normalizeSelectedComponent sel
  match applyGraphEditIntent previous intent nsel with
  | (next, ni, none) =>
    { status := "success", message := "Edit applied.", selectedComponent := nsel,
      editIntent := ni, graphModel := next }
  | (_, ni, some e) =>
    { status := "error", message := e, selectedComponent := nsel,
      editIntent := ni, graphModel := previous }

/-! ## Python AST model and security scanner (`scanner.py`) -/

/-- The fragment of the Python AST needed by the scanner: module, expression
statement, assignment, imports, calls, attribute accesses, names, constants.
`lineno` fields are the 1-based line numbers Python attaches to nodes.
(Keyword arguments of calls and the `ctx`/`alias` child nodes are omitted:
they are never calls or attribute accesses, so the scanner ignores them.) -/
inductive PyNode where
  | module (body : List PyNode)
  | exprStmt (lineno : Nat) (value : PyNode)
  | assign (lineno : Nat) (targets : List PyNode) (value : PyNode)
  | importStmt (lineno : Nat) (names : List String)
  | importFrom (lineno : Nat) (moduleName : Option String) (names : List String)
  | call (lineno : Nat) (func : PyNode) (args : List PyNode)
  | attribute (lineno : Nat) (value : PyNode) (attr : String)
  | name (lineno : Nat) (id : String)
  | constant (lineno : Nat) (val : String)

/-- `ast.iter_child_nodes`, in field order. -/
def PyNode.children : PyNode → List PyNode
  | .module body => body
  | .exprStmt _ v => [v]
  | .assign _ targets v => targets ++ [v]
  | .importStmt _ _ => []
  | .importFrom _ _ _ => []
  | .call _ f args => f :: args
  | .attribute _ v _ => [v]
  | .name _ _ => []
  | .constant _ _ => []

mutual

/-- Number of nodes in a tree (termination measure for the BFS walk). -/
def PyNode.size : PyNode → Nat
  | .module body => 1 + PyNode.sizeList body
  | .exprStmt _ v => 1 + v.size
  | .assign _ targets v => 1 + PyNode.sizeList targets + v.size
  | .importStmt _ _ => 1
  | .importFrom _ _ _ => 1
  | .call _ f args => 1 + f.size + PyNode.sizeList args
  | .attribute _ v _ => 1 + v.size
  | .name _ _ => 1
  | .constant _ _ => 1

/-- Total size of a list of trees. -/
def PyNode.sizeList : List PyNode → Nat
  | [] => 0
  | n :: ns => n.size + PyNode.sizeList ns

end

/-- Worker for `ast.walk`: breadth-first traversal with a FIFO worklist
(yield the head, enqueue its children at the back).  The fuel argument is
structural; each step pops exactly one node, so fuel equal to the total node
count of the worklist runs the traversal to completion. -/
def walkBFSAux : Nat → List PyNode → List PyNode
  | 0, _ => []
  | _ + 1, [] => []
  | fuel + 1, n :: rest => n :: walkBFSAux fuel (rest ++ n.children)

/-- `ast.walk` applied to a worklist (total fuel: one unit per node). -/
def walkBFS (q : List PyNode) : List PyNode :=
  walkBFSAux (PyNode.sizeList q) q

/-- `_get_attribute_name`: the dotted name of a `Name`/`Attribute` chain. -/
def getAttributeName : PyNode → Option String
  | .name _ id => some id
  | .attribute _ v attr => (getAttributeName v).map (fun p => p ++ "." ++ attr)
  | _ => none

/-- `DANGEROUS_BUILTINS` (a Python `set`, modelled as a list). -/
def DANGEROUS_BUILTINS : List String :=
  ["exec", "eval", "compile", "getattr", "setattr", "delattr", "vars",
   "__import__", "breakpoint", "open", "globals", "locals", "spawn"]

/-- `DANGEROUS_ATTR_CALLS`. -/
def DANGEROUS_ATTR_CALLS : List String :=
  ["os.system", "os.popen", "pickle.loads", "pickle.load"]

/-- `DANGEROUS_DUNDERS`. -/
def DANGEROUS_DUNDERS : List String :=
  ["__dict__", "__builtins__", "__class__", "__subclasses__", "__bases__",
   "__globals__", "__mro__"]

/-- Split a dotted name at `'.'` characters (worker). -/
def splitDotAux : List Char → List Char → List String
  | [], acc => [String.mk acc.reverse]
  | '.' :: rest, acc => String.mk acc.reverse :: splitDotAux rest []
  | c :: rest, acc => splitDotAux rest (c :: acc)

/-- Python `func_name.split('.')[-1]`. -/
def lastDotSegment (s : String) : String :=
  (splitDotAux s.data []).getLastD ""

/-- One dangerous-usage finding (`function`, `line`, `code` keys). -/
structure DangerFinding where
  function : String
  line : Nat
  code : String
deriving DecidableEq, Repr

/-- `lines[line_no - 1] if line_no <= len(lines) else ''`, with the 1-based
line numbers the AST carries (real linenos are always ≥ 1, so Python's
negative-index corner for `line_no = 0` is unreachable). -/
def lineTextAt (lines : List String) (lineNo : Nat) : String :=
  if lineNo ≤ lines.length then lines.getD (lineNo - 1) "" else ""

/-- The findings `check_dangerous_functions` emits while visiting one node:
for a call, the builtin / attribute-call / `subprocess.` checks run
independently in that order; for an attribute access, the dunder check. -/
def nodeIssues (lines : List String) : PyNode → List DangerFinding
  | .call lineno f _ =>
    match getAttributeName f with
    | some fn =>
      let lineText := pystrip (lineTextAt lines lineno)
      (if lastDotSegment fn ∈ DANGEROUS_BUILTINS then [⟨fn, lineno, lineText⟩] else []) ++
      (if fn ∈ DANGEROUS_ATTR_CALLS then [⟨fn, lineno, lineText⟩] else []) ++
      (if "subprocess.".data.isPrefixOf fn.data then [⟨fn, lineno, lineText⟩] else [])
    | none => []
  | .attribute lineno _ attr =>
    if attr ∈ DANGEROUS_DUNDERS then
      [⟨attr, lineno, pystrip (lineTextAt lines lineno)⟩]
    else []
  | _ => []

/-- The union of pattern catalogs used by the string fallback (Python builds
a `set`, whose iteration order is unspecified; a fixed order is used here —
no claim depends on multi-finding order). -/
def ALL_STRING_PATTERNS : List String :=
  DANGEROUS_BUILTINS ++ DANGEROUS_ATTR_CALLS ++ DANGEROUS_DUNDERS ++ ["subprocess."]

/-- `_check_dangerous_functions_string`: per-line substring scan used when
parsing fails. -/
def checkDangerousFunctionsFallback (code : String) : List DangerFinding :=
  ((splitLines code).enum).flatMap (fun p =>
    let stripped := pystrip p.2
    ALL_STRING_PATTERNS.filterMap (fun pat =>
      if strContains stripped pat then some ⟨pat, p.1 + 1, stripped⟩ else none))

/-- A Python source together with the outcome of `ast.parse` on it: the parsed
tree, or the `SyntaxError` text.  The pairing is the trusted frontend of the
embedding; each concrete instance below pairs a source string with the tree
CPython's `ast.parse` produces for it. -/
structure PySrc where
  text : String
  parsed : Except String PyNode

/-- `check_dangerous_functions`: AST-based detection, with the string-based
fallback when parsing raises a syntax error. -/
def checkDangerousFunctions (src : PySrc) : List DangerFinding :=
  match src.parsed with
  | .error _ => checkDangerousFunctionsFallback src.text
  | .ok tree =>
    let lines := splitLines src.text
    (walkBFS [tree]).flatMap (nodeIssues lines)

/-- The rejection message `validate_syntax` produces for an import node. -/
def importMessage : PyNode → Option String
  | .importStmt _ names =>
    some ("Import statements are not allowed: " ++ String.intercalate ", " names)
  | .importFrom _ moduleName _ =>
    some ("Import statements are not allowed: " ++ moduleName.getD "")
  | _ => none

/-- `validate_syntax`: parse failure or any import statement anywhere in the
tree invalidates the source. -/
def validateSyntax (src : PySrc) : Bool × Option String :=
  match src.parsed with
  | .error e => (false, some ("Syntax error: " ++ e))
  | .ok tree =>
    match (walkBFS [tree]).findSome? importMessage with
    | some msg => (false, some msg)
    | none => (true, none)

/-- A `SecurityIssue` record. -/
structure SecurityIssue where
  severity : String
  confidence : String
  line : Nat
  issueText : String
  issueType : String
deriving DecidableEq, Repr

/-- `check_security` with the external `bandit` linter unavailable (its
failures are swallowed by the `except Exception: pass`, the degraded mode the
code supports): only the dangerous-function findings, as HIGH/HIGH issues.
The temporary file written for bandit has no observable effect here. -/
def checkSecurity (src : PySrc) : List SecurityIssue :=
  (checkDangerousFunctions src).map (fun item =>
    { severity := "HIGH", confidence := "HIGH", line := item.line,
      issueText := "Dangerous function call: " ++ item.function,
      issueType := "dangerous_function" })

/-- Line-count metrics (`count_code_metrics`); the floating-point
`comment_ratio` is display-only and omitted. -/
structure CodeMetrics where
  totalLines : Nat
  codeLines : Nat
  commentLines : Nat
  blankLines : Nat
deriving DecidableEq, Repr

/-- `count_code_metrics`. -/
def countCodeMetrics (code : String) : CodeMetrics :=
  let lines := splitLines code
  let blank := (lines.filter (fun l => pystrip l = "")).length
  let comment := (lines.filter (fun l =>
    pystrip l ≠ "" ∧ "#".data.isPrefixOf (pystrip l).data)).length
  { totalLines := lines.length, codeLines := lines.length - blank - comment,
    commentLines := comment, blankLines := blank }

/-- A `CodeScanResult`. -/
structure CodeScanResult where
  hasErrors : Bool
  syntaxValid : Bool
  securityIssues : List SecurityIssue
  errorMessage : Option String
  metrics : Option CodeMetrics
deriving DecidableEq, Repr

/-- `scan_python_code`: metrics, then syntax/import validation (returning
early on failure), then the security check; `has_errors` is non-emptiness of
the issue list. -/
def scanPythonCode (src : PySrc) : CodeScanResult :=
  let metrics := countCodeMetrics src.text
  match validateSyntax src with
  | (false, errorMessage) =>
    { hasErrors := true, syntaxValid := false, securityIssues := [],
      errorMessage := errorMessage, metrics := some metrics }
  | (true, _) =>
    let issues := checkSecurity src
    { hasErrors := issues.length > 0, syntaxValid := true,
      securityIssues := issues, errorMessage := none, metrics := some metrics }

/-! ## The pre-execution gate of `generate_diagram` (`diagram_tools.py`) -/

/-- `_normalize_output_format`: falsy input defaults to `png`, then lowercase
and strip; anything but `png`/`svg` raises, returned as the error message. -/
def normalizeOutputFormatStr (outputFormat : String) : Except String String :=
  let fmt := pystrip (lowerStr (if outputFormat = "" then "png" else outputFormat))
  if fmt = "png" ∨ fmt = "svg" then .ok fmt
  else .error "Unsupported output format. Supported values are png and svg."

/-- The portion of `generate_diagram` that runs before any code execution or
file creation: the security-scan gate and the output-format check.
`some (status, message)` means the function returns that response *without
executing anything and without producing an output file*; `none` means control
proceeds to output-path resolution, namespace construction and `exec` of the
processed code (all filesystem writes and code execution happen only there). -/
def generateDiagramGate (src : PySrc) (outputFormat : String) :
    Option (String × String) :=
  let scanResult := scanPythonCode src
  if scanResult.hasErrors then
    let issuesText := String.intercalate "; " (scanResult.securityIssues.map (·.issueText))
    let errMsg := match scanResult.errorMessage with
      | some m => if m = "" then issuesText else m
      | none => issuesText
    some ("error", "Security scan failed: " ++ errMsg)
  else
    match normalizeOutputFormatStr outputFormat with
    | .error e => some ("error", e)
    | .ok _ => none

/-! ## `_ensure_show_false` (`diagram_tools.py`)

Each `re.sub` used by `_ensure_show_false` is a deterministic leftmost,
non-overlapping scan; the workers below mirror them one-for-one.  Every worker
carries a fuel argument initialised to the input length — each step consumes
at least one input character, so that fuel is always sufficient. -/

/-- The literal `Diagram(` opening every pattern. -/
def DIAGRAM_OPEN : List Char := "Diagram(".data

/-- Split at the first `)`: the preceding characters (the `[^)]*` group) and
the characters after the `)`. -/
def splitAtRParen : List Char → Option (List Char × List Char)
  | [] => none
  | c :: cs =>
    if c = ')' then some ([], cs)
    else
      match splitAtRParen cs with
      | some (a, r) => some (c :: a, r)
      | none => none

/-- `re.sub(r'(Diagram\([^)]*)\)', r'\1<ins>)', code)`: insert `ins` before
the first `)` that closes each `Diagram(`. -/
def subDiagramAppendAux (ins : List Char) : Nat → List Char → List Char
  | 0, cs => cs
  | _ + 1, [] => []
  | fuel + 1, c :: cs =>
    if DIAGRAM_OPEN.isPrefixOf (c :: cs) then
      match splitAtRParen ((c :: cs).drop 8) with
      | some (args, rest) =>
        DIAGRAM_OPEN ++ args ++ ins ++ ')' :: subDiagramAppendAux ins fuel rest
      | none => c :: subDiagramAppendAux ins fuel cs
    else c :: subDiagramAppendAux ins fuel cs

/-- String-level wrapper for `subDiagramAppendAux`. -/
def subDiagramAppend (ins : String) (s : String) : String :=
  String.mk (subDiagramAppendAux ins.data s.data.length s.data)

/-- The literal `show=False`. -/
def SHOW_FALSE : List Char := "show=False".data

/-- Start index of the *last* occurrence of `show=False` inside `run` (the
greedy `[^)]*` group backtracks to the rightmost occurrence). -/
def lastShowIdx (run : List Char) : Option Nat :=
  ((List.range (run.length + 1)).filter
    (fun i => SHOW_FALSE.isPrefixOf (run.drop i))).getLast?

/-- `re.sub(r'(Diagram\([^)]*)(show=False)', rf'\1\2, filename="{out}"', code)`:
after each `Diagram(`, locate the last `show=False` within the run of
non-`)` characters and append the filename keyword after it. -/
def subShowFilenameAux (out : List Char) : Nat → List Char → List Char
  | 0, cs => cs
  | _ + 1, [] => []
  | fuel + 1, c :: cs =>
    if DIAGRAM_OPEN.isPrefixOf (c :: cs) then
      let after := (c :: cs).drop 8
      let run := after.takeWhile (fun ch => ch ≠ ')')
      let rest := after.dropWhile (fun ch => ch ≠ ')')
      match lastShowIdx run with
      | some p =>
        DIAGRAM_OPEN ++ run.take p ++ SHOW_FALSE ++ ", filename=\"".data ++ out ++
          '"' :: subShowFilenameAux out fuel (run.drop (p + SHOW_FALSE.length) ++ rest)
      | none => c :: subShowFilenameAux out fuel cs
    else c :: subShowFilenameAux out fuel cs

/-- String-level wrapper for `subShowFilenameAux`. -/
def subShowFilename (out : String) (s : String) : String :=
  String.mk (subShowFilenameAux out.data s.data.length s.data)

/-- The single-quote character (spelled via its code point). -/
def squote : Char := Char.ofNat 39

/-- The characters matched by the `["\']` classes. -/
def QUOTES : List Char := ['"', squote]

/-- Tail match for `filename\s*=\s*["\'][^"\']*["\']` after the literal
`filename`: optional whitespace, `=`, optional whitespace, a quote, a run of
non-quote characters, a quote; returns the remainder on success. -/
def matchFilenameTail (cs : List Char) : Option (List Char) :=
  match cs.dropWhile pyIsSpace with
  | '=' :: cs2 =>
    match cs2.dropWhile pyIsSpace with
    | q :: cs4 =>
      if QUOTES.contains q then
        match cs4.dropWhile (fun ch => !QUOTES.contains ch) with
        | q2 :: cs5 => if QUOTES.contains q2 then some cs5 else none
        | [] => none
      else none
    | [] => none
  | _ => none

/-- `re.sub(r'filename\s*=\s*["\'][^"\']*["\']', f'filename="{out}"', code)`. -/
def subFilenameOverrideAux (out : List Char) : Nat → List Char → List Char
  | 0, cs => cs
  | _ + 1, [] => []
  | fuel + 1, c :: cs =>
    if "filename".data.isPrefixOf (c :: cs) then
      match matchFilenameTail ((c :: cs).drop 8) with
      | some rest =>
        "filename=\"".data ++ out ++ '"' :: subFilenameOverrideAux out fuel rest
      | none => c :: subFilenameOverrideAux out fuel cs
    else c :: subFilenameOverrideAux out fuel cs

/-- String-level wrapper for `subFilenameOverrideAux`. -/
def subFilenameOverride (out : String) (s : String) : String :=
  String.mk (subFilenameOverrideAux out.data s.data.length s.data)

/-- Split at the first `]` (the `[^\]]*` group of the outformat pattern). -/
def splitAtRBracket : List Char → Option (List Char × List Char)
  | [] => none
  | c :: cs =>
    if c = ']' then some ([], cs)
    else
      match splitAtRBracket cs with
      | some (a, r) => some (c :: a, r)
      | none => none

/-- Tail match for `outformat\s*=\s*(\[[^\]]*\]|["\'][^"\']*["\'])` after the
literal `outformat`: the bracketed-list alternative is tried first, exactly as
the regex alternation orders it. -/
def matchOutformatTail (cs : List Char) : Option (List Char) :=
  match cs.dropWhile pyIsSpace with
  | '=' :: cs2 =>
    match cs2.dropWhile pyIsSpace with
    | '[' :: cs4 =>
      match splitAtRBracket cs4 with
      | some (_, rest) => some rest
      | none => none
    | q :: cs4 =>
      if QUOTES.contains q then
        match cs4.dropWhile (fun ch => !QUOTES.contains ch) with
        | q2 :: cs5 => if QUOTES.contains q2 then some cs5 else none
        | [] => none
      else none
    | [] => none
  | _ => none

/-- `re.sub` for the outformat-override pattern with replacement
`outformat="{fmt}"`. -/
def subOutformatOverrideAux (fmt : List Char) : Nat → List Char → List Char
  | 0, cs => cs
  | _ + 1, [] => []
  | fuel + 1, c :: cs =>
    if "outformat".data.isPrefixOf (c :: cs) then
      match matchOutformatTail ((c :: cs).drop 9) with
      | some rest =>
        "outformat=\"".data ++ fmt ++ '"' :: subOutformatOverrideAux fmt fuel rest
      | none => c :: subOutformatOverrideAux fmt fuel cs
    else c :: subOutformatOverrideAux fmt fuel cs

/-- String-level wrapper for `subOutformatOverrideAux`. -/
def subOutformatOverride (fmt : String) (s : String) : String :=
  String.mk (subOutformatOverrideAux fmt.data s.data.length s.data)

/-- `_ensure_show_false(code, output_path, output_format)`: the three
substitution stages (show, filename, outformat), each conditioned on substring
presence in the current text exactly as in the source. -/
def ensureShowFalse (code outputPath outputFormat : String) : String :=
  let c1 := if strContains code "show=False" then code
            else subDiagramAppend ", show=False" code
  let c2 := if strContains c1 "filename=" then subFilenameOverride outputPath c1
            else subShowFilename outputPath c1
  if strContains c2 "outformat=" then subOutformatOverride outputFormat c2
  else subDiagramAppend (", outformat=\"" ++ outputFormat ++ "\"") c2

/-! ## Bicep graph parser (`bicep_tools.py`) -/

/-- Whether the head of a character list satisfies a predicate. -/
def headIs (p : Char → Bool) : List Char → Bool
  | c :: _ => p c
  | [] => false

/-- `[A-Za-z_]` (ASCII, as in the `re` patterns). -/
def isIdentStart (c : Char) : Bool := c.isAlpha || c == '_'

/-- `[A-Za-z0-9_]`. -/
def isIdentChar (c : Char) : Bool := c.isAlphanum || c == '_'

/-- `_RESOURCE_DECL_RE.match(line)`: prefix-match
`^\s*resource\s+(symbol)\s+'(type)@version'\s*=\s*\x7b` against one line,
yielding the symbol and type groups.  Each character class here excludes the
characters that delimit it, so the regex match is deterministic. -/
def matchResourceDecl (line : String) : Option (String × String) := do
  let cs := line.data.dropWhile pyIsSpace
  guard ("resource".data.isPrefixOf cs)
  let cs1 := cs.drop 8
  guard (headIs pyIsSpace cs1)
  let cs2 := cs1.dropWhile pyIsSpace
  guard (headIs isIdentStart cs2)
  let sym := cs2.takeWhile isIdentChar
  let cs3 := cs2.dropWhile isIdentChar
  guard (headIs pyIsSpace cs3)
  let cs4 := cs3.dropWhile pyIsSpace
  match cs4 with
  | q :: cs5 =>
    guard (q = squote)
    let ty := cs5.takeWhile (fun c => c ≠ squote ∧ c ≠ '@')
    guard (!ty.isEmpty)
    match cs5.dropWhile (fun c => c ≠ squote ∧ c ≠ '@') with
    | '@' :: cs6 =>
      let ver := cs6.takeWhile (fun c => c ≠ squote)
      guard (!ver.isEmpty)
      match cs6.dropWhile (fun c => c ≠ squote) with
      | q2 :: cs7 =>
        guard (q2 = squote)
        let cs8 := cs7.dropWhile pyIsSpace
        match cs8 with
        | '=' :: cs9 =>
          match cs9.dropWhile pyIsSpace with
          | '{' :: _ => some (String.mk sym, String.mk ty)
          | _ => none
        | _ => none
      | [] => none
    | _ => none
  | [] => none

/-- `line.count('\x7b') - line.count('\x7d')`. -/
def braceDelta (l : String) : Int :=
  ((l.data.filter (· = '{')).length : Int) - ((l.data.filter (· = '}')).length : Int)

/-- The inner accumulation loop of `_extract_resource_blocks`: consume lines
while the brace depth stays positive, returning the block lines and the rest. -/
def takeBlockLines (depth : Int) : List String → (List String × List String)
  | [] => ([], [])
  | l :: rest =>
    if depth > 0 then
      let res := takeBlockLines (depth + braceDelta l) rest
      (l :: res.1, res.2)
    else ([], l :: rest)

/-- One extracted resource block (`symbolicName`, `resourceType`, `line`, and
the block's lines; `blockText` is their newline join). -/
structure BicepBlock where
  symbolicName : String
  resourceType : String
  line : Nat
  blockLines : List String
deriving DecidableEq, Repr

/-- `_extract_resource_blocks`, scanning lines for declaration headers and
accumulating each block by brace counting.  Fuel is the number of lines;
every step consumes at least one line. -/
def extractBlocksAux : Nat → Nat → List String → List BicepBlock
  | 0, _, _ => []
  | _ + 1, _, [] => []
  | fuel + 1, idx, l :: rest =>
    match matchResourceDecl l with
    | none => extractBlocksAux fuel (idx + 1) rest
    | some st =>
      let res := takeBlockLines (braceDelta l) rest
      { symbolicName := st.1, resourceType := st.2, line := idx + 1,
        blockLines := l :: res.1 } ::
        extractBlocksAux fuel (idx + 1 + res.1.length) res.2

/-- `_extract_resource_blocks` on whole source text. -/
def extractResourceBlocks (bicepCode : String) : List BicepBlock :=
  let lines := splitLines bicepCode
  extractBlocksAux lines.length 0 lines

/-- Maximal `[A-Za-z0-9_]` runs of a character list (fuel: one unit per
character; every step consumes at least one). -/
def wordRunsAux : Nat → List Char → List String
  | 0, _ => []
  | _ + 1, [] => []
  | fuel + 1, c :: cs =>
    if isIdentChar c then
      String.mk (c :: cs.takeWhile isIdentChar) ::
        wordRunsAux fuel (cs.dropWhile isIdentChar)
    else wordRunsAux fuel cs

/-- Maximal `[A-Za-z0-9_]` runs of a character list. -/
def wordRuns (cs : List Char) : List String :=
  wordRunsAux cs.length cs

/-- `_SYMBOL_RE.findall`: the identifier tokens `\b([A-Za-z_][A-Za-z0-9_]*)\b`
— exactly the maximal word runs whose first character is a letter or
underscore (runs led by a digit have no word boundary before a later letter,
so they contribute nothing). -/
def findallSymbols (cs : List Char) : List String :=
  (wordRuns cs).filter (fun w => headIs isIdentStart w.data)

/-- Tail match for `_DEPENDS_ON_RE` after the literal `dependsOn`:
`\s*:\s*\[` then the `[^\]]*` group up to the first `]`. -/
def matchDependsOnTail (cs : List Char) : Option (List Char × List Char) :=
  match cs.dropWhile pyIsSpace with
  | ':' :: cs2 =>
    match cs2.dropWhile pyIsSpace with
    | '[' :: cs4 => splitAtRBracket cs4
    | _ => none
  | _ => none

/-- `_DEPENDS_ON_RE.finditer(block_text)`: the contents of each
`dependsOn: [ ... ]` array, in leftmost non-overlapping order. -/
def dependsOnSections : Nat → List Char → List (List Char)
  | 0, _ => []
  | _ + 1, [] => []
  | fuel + 1, c :: cs =>
    if "dependsOn".data.isPrefixOf (c :: cs) then
      match matchDependsOnTail ((c :: cs).drop 9) with
      | some (deps, rest) => deps :: dependsOnSections fuel rest
      | none => dependsOnSections fuel cs
    else dependsOnSections fuel cs

/-- The dependency list of one resource block: identifier tokens of every
`dependsOn` array, excluding the resource's own name, first-seen
deduplicated. -/
def resourceDependsOn (selfName : String) (blockText : List Char) : List String :=
  (dependsOnSections blockText.length blockText).foldl (fun acc deps =>
    (findallSymbols deps).foldl (fun acc2 tok =>
      if tok == selfName then acc2
      else if acc2.contains tok then acc2 else acc2 ++ [tok]) acc) []

/-- The resource list `parse_bicep_graph` builds from the extracted blocks
(the `line` metadata of the Python dicts is dropped here, as in the
`ResourceNode` model). -/
def bicepResources (blocks : List BicepBlock) : List ResourceNode :=
  blocks.map (fun b =>
    { symbolicName := b.symbolicName, resourceType := b.resourceType,
      dependsOn := resourceDependsOn b.symbolicName
        (String.intercalate "\n" b.blockLines).data })

/-- The edges `parse_bicep_graph` builds: one `dependency → self` edge of kind
`dependsOn` per dependency reference, in resource order. -/
def bicepEdges (rs : List ResourceNode) : List DependencyEdge :=
  rs.flatMap (fun r => r.dependsOn.map (fun dep => ⟨dep, r.symbolicName, "dependsOn"⟩))

/-- `parse_bicep_graph`. -/
def parseBicepGraph (bicepCode : String) : GraphModel :=
  if pystrip bicepCode = "" then
    { status := "error", message := "No Bicep code provided.",
      resources := [], edges := [], unresolvedDependencies := [] }
  else
    let blocks := extractResourceBlocks bicepCode
    if blocks.isEmpty then
      { status := "error", message := "No Bicep resource declarations were found.",
        resources := [], edges := [], unresolvedDependencies := [] }
    else
      let resources := bicepResources blocks
      let edges := bicepEdges resources
      let unresolved := unresolvedOf resources edges
      let msgBase := "Parsed " ++ toString resources.length ++ " resources and " ++
        toString edges.length ++ " explicit dependency edges from Bicep input."
      let message := if unresolved.isEmpty then msgBase
        else msgBase ++ " " ++ toString unresolved.length ++
          " dependencies did not map to local symbolic resources."
      { status := "success", message := message, resources := resources,
        edges := edges, unresolvedDependencies := unresolved }

/-! ## Specification-side predicates and concrete payloads -/

/-- A string equal to its own strip and non-empty — the shape of every
symbolic name, resource type, and edge field the engine produces. -/
def strippedNonempty (s : String) : Prop := pystrip s = s ∧ s ≠ ""

/-- Well-formedness of an edge: all three fields stripped and non-empty. -/
def EdgeWF (e : DependencyEdge) : Prop :=
  strippedNonempty e.fromName ∧ strippedNonempty e.toName ∧ strippedNonempty e.kind

/-- The `from` values of the edges targeting a symbol — the set the spec says
`dependsOn` must derive from. -/
def derivedFroms (es : List DependencyEdge) (symbol : String) : List String :=
  (es.filter (fun e => e.toName == symbol)).map (·.fromName)

/-- No two edges share a `(from, to, kind)` triple. -/
def edgeKeysNodup (es : List DependencyEdge) : Prop := (es.map edgeKey).Nodup

/-- A valid graph model in the sense of the spec's data-model invariants:
a fixed point of normalization with `status = success`, unique symbolic names,
deduplicated edges, and every `dependsOn` a duplicate-free list with exactly
the derived membership (its ordering is unconstrained — the parser emits
first-seen order, the edit engine sorted order). -/
def ValidGraph (g : GraphModel) : Prop :=
  normalizeGraphModel g = g ∧
  g.status = "success" ∧
  (symbolsOf g.resources).Nodup ∧
  dedupeEdges g.edges = g.edges ∧
  ∀ r ∈ g.resources, r.dependsOn.Nodup ∧
    (∀ x ∈ r.dependsOn, x ∈ derivedFroms g.edges r.symbolicName) ∧
    (∀ x ∈ derivedFroms g.edges r.symbolicName, x ∈ r.dependsOn)

instance instDecStrippedNonempty (s : String) : Decidable (strippedNonempty s) := by
  unfold strippedNonempty
  infer_instance

instance instDecEdgeWF (e : DependencyEdge) : Decidable (EdgeWF e) := by
  unfold EdgeWF
  infer_instance

instance instDecValidGraph (g : GraphModel) : Decidable (ValidGraph g) := by
  unfold ValidGraph
  infer_instance

/-- Graph equality up to the list ordering of each resource's `dependsOn`:
same resource sequence (names and types pointwise equal, `dependsOn` equal as
multisets), same edge list, same unresolved list, same status.  The `message`
field is informational and excluded. -/
def GraphEquivUpToDependsOnOrder (g h : GraphModel) : Prop :=
  g.status = h.status ∧
  List.Forall₂ (fun a b => a.symbolicName = b.symbolicName ∧
    a.resourceType = b.resourceType ∧ a.dependsOn.Perm b.dependsOn)
    g.resources h.resources ∧
  g.edges = h.edges ∧
  g.unresolvedDependencies = h.unresolvedDependencies

/-- The rename intent `symbolicName → newSymbolicName`. -/
def renameIntent (oldName newName : String) : EditIntent :=
  { action := some "rename_resource", symbolicName := some oldName,
    newSymbolicName := some newName }

/-- Source `x = "exec("` with the tree `ast.parse` yields for it: one
assignment whose right-hand side is a string constant.  It contains the
substring `exec(` only inside a string literal. -/
def srcStringLiteralExec : PySrc :=
  { text := "x = \"exec(\"",
    parsed := .ok (.module [.assign 1 [.name 1 "x"] (.constant 1 "exec(")]) }

/-- Source `exec("x")\n` with its tree: one expression statement calling the
name `exec` on a string constant. -/
def srcExecCall : PySrc :=
  { text := "exec(\"x\")\n",
    parsed := .ok (.module [.exprStmt 1 (.call 1 (.name 1 "exec") [.constant 1 "x"])]) }

/-- Source `x = "exec is a word"\n` with its tree: an assignment of a string
constant; the denylisted name occurs only inside the string literal. -/
def srcExecWord : PySrc :=
  { text := "x = \"exec is a word\"\n",
    parsed := .ok (.module [.assign 1 [.name 1 "x"] (.constant 1 "exec is a word")]) }

/-- A Bicep template with two resource blocks where only the second declares
`dependsOn: [stg]`. -/
def bicepTwoResources : String :=
  "resource stg \x27Microsoft.Storage/storageAccounts@2023-01-01\x27 = \x7b\n" ++
  "  name: \x27mystg\x27\n\x7d\n" ++
  "resource web \x27Microsoft.Web/sites@2023-01-01\x27 = \x7b\n" ++
  "  dependsOn: [\n    stg\n  ]\n\x7d\n"

/-- A graph payload carrying a duplicated `(a, b, k)` edge. -/
def dupEdgeGraph : GraphModel :=
  { status := "success", message := "", resources := [],
    edges := [⟨"a", "b", "k"⟩, ⟨"a", "b", "k"⟩], unresolvedDependencies := [] }

/-- A graph payload with two resources sharing the symbolic name `a`, and an
edge `b → a`. -/
def dupNameGraph : GraphModel :=
  { status := "success", message := "", resources := [⟨"a", "T", []⟩, ⟨"a", "U", []⟩],
    edges := [⟨"b", "a", "dependsOn"⟩], unresolvedDependencies := [] }

/-- A valid graph with resources `stg`, `web` and a *dangling* dependency edge
`storage → web` (no resource named `storage`), alongside `stg → web`. -/
def danglingRenameGraph : GraphModel :=
  { status := "success", message := "",
    resources := [⟨"stg", "T", []⟩, ⟨"web", "W", ["stg", "storage"]⟩],
    edges := [⟨"stg", "web", "dependsOn"⟩, ⟨"storage", "web", "dependsOn"⟩],
    unresolvedDependencies := ["storage"] }

/-- A valid graph with resources `stg`, `web` and the single edge
`stg → web`; no edge endpoint mentions `storage`. -/
def renameWitnessGraph : GraphModel :=
  { status := "success", message := "",
    resources := [⟨"stg", "T", []⟩, ⟨"web", "W", ["stg"]⟩],
    edges := [⟨"stg", "web", "dependsOn"⟩], unresolvedDependencies := [] }

/-- The gate-violating shapes of C1 as amended: the parsed tree contains a
call to the bare name `exec` or `eval`, a call to `os.system`, or an import
statement. -/
def astDangerousForGate (m : PyNode) : Prop :=
  (∃ n ∈ walkBFS [m], ∃ ln args,
    (∃ l2, n = PyNode.call ln (.name l2 "exec") args) ∨
    (∃ l2, n = PyNode.call ln (.name l2 "eval") args) ∨
    (∃ l2 l3, n = PyNode.call ln (.attribute l2 (.name l3 "os") "system") args)) ∨
  (∃ n ∈ walkBFS [m], (importMessage n).isSome)

/-! # Theorems

First a layer of reusable lemmas about the embedded primitives, then one
theorem per claim (with its witness or counterexample). -/

/-! ## Helper lemmas: `lexLe` and `sortedDistinct` -/

theorem lexLe_total (a : List Char) : ∀ b, lexLe a b = true ∨ lexLe b a = true := by
  induction a with
  | nil => intro b; left; rfl
  | cons x xs ih =>
    intro b
    cases b with
    | nil => right; rfl
    | cons y ys =>
      rcases Nat.lt_trichotomy x.toNat y.toNat with h | h | h
      · left; simp [lexLe, h]
      · rcases ih ys with h2 | h2
        · left; simp [lexLe, h, h2]
        · right; simp [lexLe, h.symm, h2]
      · right; simp [lexLe, h]

theorem lexLe_trans {a b c : List Char} (h1 : lexLe a b = true)
    (h2 : lexLe b c = true) : lexLe a c = true := by
  induction a generalizing b c with
  | nil => rfl
  | cons x xs ih =>
    cases b with
    | nil => simp [lexLe] at h1
    | cons y ys =>
      cases c with
      | nil => simp [lexLe] at h2
      | cons z zs =>
        simp only [lexLe] at h1 h2 ⊢
        by_cases hxy : x.toNat < y.toNat
        · by_cases hyz : y.toNat < z.toNat
          · rw [if_pos (Nat.lt_trans hxy hyz)]
          · by_cases hzy : z.toNat < y.toNat
            · rw [if_neg hyz, if_pos hzy] at h2
              exact absurd h2 (by simp)
            · have hyz' : y.toNat = z.toNat :=
                Nat.le_antisymm (Nat.le_of_not_lt hzy) (Nat.le_of_not_lt hyz)
              rw [if_pos (hyz' ▸ hxy)]
        · by_cases hyx : y.toNat < x.toNat
          · rw [if_neg hxy, if_pos hyx] at h1
            exact absurd h1 (by simp)
          · have hxy' : x.toNat = y.toNat :=
              Nat.le_antisymm (Nat.le_of_not_lt hyx) (Nat.le_of_not_lt hxy)
            rw [if_neg hxy, if_neg hyx] at h1
            by_cases hyz : y.toNat < z.toNat
            · rw [if_pos (hxy' ▸ hyz)]
            · by_cases hzy : z.toNat < y.toNat
              · rw [if_neg hyz, if_pos hzy] at h2
                exact absurd h2 (by simp)
              · rw [if_neg hyz, if_neg hzy] at h2
                rw [if_neg (by omega), if_neg (by omega)]
                exact ih h1 h2

theorem lexLe_antisymm {a b : List Char} (h1 : lexLe a b = true)
    (h2 : lexLe b a = true) : a = b := by
  induction a generalizing b with
  | nil =>
    cases b with
    | nil => rfl
    | cons y ys => simp [lexLe] at h2
  | cons x xs ih =>
    cases b with
    | nil => simp [lexLe] at h1
    | cons y ys =>
      simp only [lexLe] at h1 h2
      rcases Nat.lt_trichotomy x.toNat y.toNat with hxy | hxy | hxy
      · rw [if_neg (by omega), if_pos hxy] at h2
        exact absurd h2 (by simp)
      · have hx : x = y := Char.eq_of_val_eq (UInt32.ext hxy)
        subst hx
        rw [if_neg (by omega), if_neg (by omega)] at h1
        rw [if_neg (by omega), if_neg (by omega)] at h2
        rw [ih h1 h2]
      · rw [if_neg (by omega), if_pos hxy] at h1
        exact absurd h1 (by simp)

theorem pyStrLe_antisymm {a b : String} (h1 : pyStrLe a b = true)
    (h2 : pyStrLe b a = true) : a = b :=
  congrArg String.mk (lexLe_antisymm h1 h2)

theorem mem_sortedDistinct {x : String} {l : List String} :
    x ∈ sortedDistinct l ↔ x ∈ l := by
  simp [sortedDistinct, List.mem_insertionSort, List.mem_dedup]

theorem nodup_sortedDistinct (l : List String) : (sortedDistinct l).Nodup :=
  (List.perm_insertionSort (fun a b => pyStrLe a b = true) l.dedup).nodup_iff.mpr
    (List.nodup_dedup l)

theorem sorted_sortedDistinct (l : List String) :
    List.Sorted (fun a b => pyStrLe a b = true) (sortedDistinct l) :=
  @List.sorted_insertionSort String (fun a b => pyStrLe a b = true) _
    ⟨fun a b => lexLe_total a.data b.data⟩
    ⟨fun _ _ _ => lexLe_trans⟩ l.dedup

theorem sortedDistinct_congr {l₁ l₂ : List String}
    (h : ∀ x, x ∈ l₁ ↔ x ∈ l₂) : sortedDistinct l₁ = sortedDistinct l₂ := by
  refine @List.eq_of_perm_of_sorted String (fun a b => pyStrLe a b = true)
    ⟨fun _ _ => pyStrLe_antisymm⟩ _ _ ?_ (sorted_sortedDistinct l₁)
    (sorted_sortedDistinct l₂)
  refine (List.perm_ext_iff_of_nodup (nodup_sortedDistinct l₁)
    (nodup_sortedDistinct l₂)).mpr ?_
  intro a
  simp [mem_sortedDistinct, h a]

/-! ## Helper lemmas: `pystrip` -/

theorem dropWhile_dropWhile_eq (p : Char → Bool) (l : List Char) :
    (l.dropWhile p).dropWhile p = l.dropWhile p := by
  induction l with
  | nil => rfl
  | cons c cs ih =>
    by_cases h : p c
    · simp [List.dropWhile_cons, h, ih]
    · simp [List.dropWhile_cons, h]

theorem pystripList_idem (cs : List Char) :
    pystripList (pystripList cs) = pystripList cs := by
  unfold pystripList
  set p := pyIsSpace
  set d := cs.dropWhile p with hd
  set r := (d.reverse.dropWhile p).reverse with hr
  have hpref : r <+: d := by
    have hsuf : d.reverse.dropWhile p <:+ d.reverse := List.dropWhile_suffix p
    have := List.reverse_prefix.mpr hsuf
    rwa [List.reverse_reverse] at this
  have hdfix : d.dropWhile p = d := dropWhile_dropWhile_eq p cs
  have hrfix : r.dropWhile p = r := by
    rcases Decidable.em (r = []) with h0 | h0
    · rw [h0]; rfl
    · rw [List.dropWhile_eq_self_iff]
      intro hl
      have hdne : d ≠ [] := by
        intro hdnil
        rcases hpref with ⟨t, ht⟩
        rw [hdnil] at ht
        exact h0 (List.append_eq_nil.mp ht).1
      have hRhead : r.head h0 = d.head hdne := List.IsPrefix.head hpref h0
      have hDfix := hdfix
      rw [List.dropWhile_eq_self_iff] at hDfix
      have := hDfix (List.length_pos.mpr hdne)
      rw [List.get_mk_zero hl, hRhead]
      rwa [List.get_mk_zero (List.length_pos.mpr hdne)] at this
  rw [hrfix, List.reverse_reverse, dropWhile_dropWhile_eq]

theorem pystrip_idem (s : String) : pystrip (pystrip s) = pystrip s :=
  congrArg String.mk (pystripList_idem s.data)

theorem strippedNonempty_of_pystrip {s : String} (h : pystrip s ≠ "") :
    strippedNonempty (pystrip s) :=
  ⟨pystrip_idem s, h⟩

/-! ## Helper lemmas: lists -/

theorem filterMap_eq_self_of {α : Type} {f : α → Option α} {l : List α}
    (h : ∀ x ∈ l, f x = some x) : l.filterMap f = l := by
  induction l with
  | nil => rfl
  | cons x xs ih =>
    rw [List.filterMap_cons, h x (by simp)]
    exact congrArg (x :: ·) (ih (fun y hy => h y (by simp [hy])))

theorem flatMap_ne_nil_of_mem {α β : Type} {f : α → List β} {l : List α} {x : α}
    (hx : x ∈ l) (hfx : f x ≠ []) : l.flatMap f ≠ [] := by
  obtain ⟨y, hy⟩ := List.exists_mem_of_ne_nil (f x) hfx
  exact List.ne_nil_of_mem (List.mem_flatMap.mpr ⟨x, hx, hy⟩)

/-! ## Helper lemmas: `dedupeEdges` -/

theorem mem_of_mem_dedupeEdgesGo {es : List DependencyEdge}
    {seen : List (String × String × String)} {e : DependencyEdge}
    (h : e ∈ dedupeEdgesGo es seen) : e ∈ es := by
  induction es generalizing seen with
  | nil => simp [dedupeEdgesGo] at h
  | cons a rest ih =>
    rw [dedupeEdgesGo] at h
    split at h
    · exact List.mem_cons_of_mem a (ih h)
    · rcases List.mem_cons.mp h with h1 | h1
      · rw [h1]
        exact List.mem_cons_self a rest
      · exact List.mem_cons_of_mem a (ih h1)

theorem mem_keys_dedupeEdgesGo {es : List DependencyEdge}
    {seen : List (String × String × String)} {k : String × String × String} :
    k ∈ (dedupeEdgesGo es seen).map edgeKey ↔ k ∈ es.map edgeKey ∧ k ∉ seen := by
  induction es generalizing seen with
  | nil => simp [dedupeEdgesGo]
  | cons a rest ih =>
    rw [dedupeEdgesGo]
    split
    · rename_i hmem
      rw [ih]
      simp only [List.map_cons, List.mem_cons]
      constructor
      · rintro ⟨h1, h2⟩
        exact ⟨Or.inr h1, h2⟩
      · rintro ⟨h1 | h1, h2⟩
        · exact absurd (h1 ▸ hmem) h2
        · exact ⟨h1, h2⟩
    · rename_i hmem
      simp only [List.map_cons, List.mem_cons, ih]
      constructor
      · rintro (h1 | ⟨h1, h2⟩)
        · have : edgeKey (⟨a.fromName, a.toName, a.kind⟩ : DependencyEdge) = edgeKey a := rfl
          rw [this] at h1
          exact ⟨Or.inl h1, h1 ▸ hmem⟩
        · simp only [List.mem_cons, not_or] at h2
          exact ⟨Or.inr h1, h2.2⟩
      · rintro ⟨h1 | h1, h2⟩
        · exact Or.inl h1
        · by_cases hk : k = edgeKey a
          · exact Or.inl hk
          · exact Or.inr ⟨h1, by simp [hk, h2]⟩

theorem nodup_keys_dedupeEdgesGo (es : List DependencyEdge) :
    ∀ seen, ((dedupeEdgesGo es seen).map edgeKey).Nodup := by
  induction es with
  | nil => intro seen; simp [dedupeEdgesGo]
  | cons a rest ih =>
    intro seen
    rw [dedupeEdgesGo]
    split
    · exact ih seen
    · simp only [List.map_cons, List.nodup_cons]
      refine ⟨?_, ih _⟩
      intro hmem
      have := (mem_keys_dedupeEdgesGo.mp hmem).2
      simp at this

theorem edgeKeysNodup_dedupeEdges (es : List DependencyEdge) :
    edgeKeysNodup (dedupeEdges es) :=
  nodup_keys_dedupeEdgesGo es []

theorem dedupeEdgesGo_eq_self {es : List DependencyEdge}
    (h : (es.map edgeKey).Nodup) :
    ∀ seen, (∀ e ∈ es, edgeKey e ∉ seen) → dedupeEdgesGo es seen = es := by
  induction es with
  | nil => intro seen _; rfl
  | cons a rest ih =>
    intro seen hseen
    rw [dedupeEdgesGo]
    rw [if_neg (hseen a (by simp))]
    have ha : (⟨a.fromName, a.toName, a.kind⟩ : DependencyEdge) = a := rfl
    rw [ha]
    simp only [List.cons.injEq, true_and]
    refine ih (by simpa using h.of_cons) _ ?_
    intro e he
    simp only [List.mem_cons, not_or]
    refine ⟨?_, hseen e (by simp [he])⟩
    intro hk
    simp only [List.map_cons, List.nodup_cons] at h
    exact h.1 (hk ▸ List.mem_map_of_mem edgeKey he)

theorem dedupeEdges_eq_self {es : List DependencyEdge}
    (h : edgeKeysNodup es) : dedupeEdges es = es :=
  dedupeEdgesGo_eq_self h [] (by simp)

theorem mem_keys_dedupeEdges {es : List DependencyEdge}
    {k : String × String × String} :
    k ∈ (dedupeEdges es).map edgeKey ↔ k ∈ es.map edgeKey := by
  rw [dedupeEdges, mem_keys_dedupeEdgesGo]
  simp

theorem mem_fromName_dedupeEdges {f : String} {es : List DependencyEdge} :
    f ∈ (dedupeEdges es).map (·.fromName) ↔ f ∈ es.map (·.fromName) := by
  constructor
  · intro h
    obtain ⟨e, he, rfl⟩ := List.mem_map.mp h
    have hk : edgeKey e ∈ (dedupeEdges es).map edgeKey := List.mem_map_of_mem _ he
    obtain ⟨e2, he2, hke⟩ := List.mem_map.mp (mem_keys_dedupeEdges.mp hk)
    exact List.mem_map.mpr ⟨e2, he2, congrArg Prod.fst hke⟩
  · intro h
    obtain ⟨e, he, rfl⟩ := List.mem_map.mp h
    have hk : edgeKey e ∈ (dedupeEdges es).map edgeKey :=
      mem_keys_dedupeEdges.mpr (List.mem_map_of_mem _ he)
    obtain ⟨e2, he2, hke⟩ := List.mem_map.mp hk
    exact List.mem_map.mpr ⟨e2, he2, congrArg Prod.fst hke⟩

/-! ## Claim C3 -/

/-- C3: whenever applying an edit intent reports an error (duplicate
`add_resource`, missing `remove`/`rename`/`set-type` target, missing required
fields, unsupported action, or any other error branch), the graph model
returned alongside the error is exactly the normalized input graph — no
resource or edge is added, removed, or modified.  (Each error branch of the
embedded `applyGraphEditIntent` carries its own action-specific literal
message, visible in the definition.) -/
theorem c3_error_leaves_graph_unchanged (g : GraphModel) (intent : EditIntent)
    (sel : Option SelectionPayload) (g' : GraphModel) (ni : NormalizedEditIntent)
    (e : String) (h : applyGraphEditIntent g intent sel = (g', ni, some e)) :
    g' = normalizeGraphModel g := by
  simp only [applyGraphEditIntent] at h
  split at h
  · exact congrArg (·.1) h.symm
  · split at h
    · exact congrArg (·.1) h.symm
    · split at h
      · exact congrArg (·.1) h.symm
      · rename_i heq
        have := congrArg (·.2.2) h
        simp at this

/-- Witness for C3 at a concrete input: an unsupported action on a payload
with duplicated edges errors out and hands back the normalized input. -/
theorem c3_error_leaves_graph_unchanged_witness :
    (applyGraphEditIntent dupEdgeGraph { action := some "noop" } none).1 =
      normalizeGraphModel dupEdgeGraph :=
  c3_error_leaves_graph_unchanged dupEdgeGraph { action := some "noop" } none
    (applyGraphEditIntent dupEdgeGraph { action := some "noop" } none).1
    (applyGraphEditIntent dupEdgeGraph { action := some "noop" } none).2.1
    ("Unsupported edit_intent.action. Supported values: add_resource, " ++
      "remove_resource, set_resource_type, rename_resource, add_dependency, " ++
      "remove_dependency.")
    (by rfl)

/-! ## Claim C8 -/

/-- C8: `check_dangerous_functions` detects AST call nodes, not string
contents: on the one-line source `exec("x")` it returns exactly one finding
with function `exec` and line 1 (and the stripped line text), and on a source
whose only occurrence of a denylisted name is inside a string literal it
returns the empty list. -/
theorem c8_check_dangerous_ast_not_strings :
    checkDangerousFunctions srcExecCall =
      [{ function := "exec", line := 1, code := "exec(\"x\")" }] ∧
    checkDangerousFunctions srcExecWord = [] := by
  constructor <;> rfl

/-! ## Claim C9 -/

/-- C9: `parse_bicep_graph` turns each dependency reference of a resource
block's `dependsOn` arrays into one directed edge `dependency → declaring
resource` of kind `dependsOn` (the edge list is exactly the per-resource
expansion of the extracted references), and on the concrete two-block template
where only the second block declares `dependsOn: [stg]` it produces exactly
one edge `(stg, web, dependsOn)` and an empty `unresolvedDependencies`. -/
theorem c9_parse_bicep_edges :
    (∀ s : String, (parseBicepGraph s).edges = bicepEdges (parseBicepGraph s).resources) ∧
    parseBicepGraph bicepTwoResources =
      { status := "success",
        message := "Parsed 2 resources and 1 explicit dependency edges from Bicep input.",
        resources := [{ symbolicName := "stg",
                        resourceType := "Microsoft.Storage/storageAccounts",
                        dependsOn := [] },
                      { symbolicName := "web",
                        resourceType := "Microsoft.Web/sites",
                        dependsOn := ["stg"] }],
        edges := [{ fromName := "stg", toName := "web", kind := "dependsOn" }],
        unresolvedDependencies := [] } := by
  constructor
  · intro s
    simp only [parseBicepGraph]
    split
    · rfl
    · split <;> rfl
  · decide

/-! ## Claim C2 (code bug) -/

/-- C2: evaluation of `_ensure_show_false` at the failing input.  The input
already sets `show=True` explicitly; because the code only tests for the
literal substring `show=False`, it appends a second `show` keyword instead of
overriding the existing one, so the produced `Diagram` call carries both
`show=True` and `show=False` — a repeated keyword argument, which Python
rejects with a `SyntaxError` when the generated code is executed. -/
theorem c2_show_duplicate_keyword :
    ensureShowFalse "with Diagram(\"t\", show=True):\n    x = 1" "/tmp/out" "png" =
      "with Diagram(\"t\", show=True, show=False, filename=\"/tmp/out\", " ++
        "outformat=\"png\"):\n    x = 1" ∧
    strContains
      (ensureShowFalse "with Diagram(\"t\", show=True):\n    x = 1" "/tmp/out" "png")
      "show=True, show=False" = true := by
  constructor <;> rfl

/-! ## Claim C1 -/

/-- Counterexample to C1 as stated: the source `x = "exec("` contains the
substring `exec(`, yet the security gate does not reject it — the scan sees
only an assignment of a string constant, so `generate_diagram` proceeds to
execute the code (`generateDiagramGate … = none` marks the path that reaches
`exec(processed_code, namespace)` and the output-file logic). -/
theorem c1_scan_gate_counterexample :
    strContains srcStringLiteralExec.text "exec(" = true ∧
    generateDiagramGate srcStringLiteralExec "png" = none := by
  constructor <;> rfl

/-- A call to the bare name `exec` always contributes a finding. -/
theorem nodeIssues_exec_ne (lines : List String) (ln l2 : Nat) (args : List PyNode) :
    nodeIssues lines (.call ln (.name l2 "exec") args) ≠ [] := by
  simp only [nodeIssues, getAttributeName]
  rw [if_pos (by decide : lastDotSegment "exec" ∈ DANGEROUS_BUILTINS)]
  simp

/-- A call to the bare name `eval` always contributes a finding. -/
theorem nodeIssues_eval_ne (lines : List String) (ln l2 : Nat) (args : List PyNode) :
    nodeIssues lines (.call ln (.name l2 "eval") args) ≠ [] := by
  simp only [nodeIssues, getAttributeName]
  rw [if_pos (by decide : lastDotSegment "eval" ∈ DANGEROUS_BUILTINS)]
  simp

/-- A call to `os.system` always contributes a finding. -/
theorem nodeIssues_os_system_ne (lines : List String) (ln l2 l3 : Nat)
    (args : List PyNode) :
    nodeIssues lines (.call ln (.attribute l2 (.name l3 "os") "system") args) ≠ [] := by
  simp only [nodeIssues, getAttributeName, Option.map]
  rw [if_neg (by decide : ¬ lastDotSegment ("os" ++ "." ++ "system") ∈ DANGEROUS_BUILTINS),
    if_pos (by decide : ("os" ++ "." ++ "system") ∈ DANGEROUS_ATTR_CALLS)]
  simp

/-- C1 (amended): for every source whose parsed AST contains a call to the
bare name `exec` or `eval`, a call to `os.system`, or any import statement,
`generate_diagram` returns `status = error` from the security gate, before any
code execution and before any output file can be produced (occurrences of the
denylisted names that are only substrings — e.g. inside string literals — do
not trigger the gate). -/
theorem c1_scan_gate_amended (src : PySrc) (fmt : String) (m : PyNode)
    (hm : src.parsed = .ok m) (hd : astDangerousForGate m) :
    ∃ msg, generateDiagramGate src fmt = some ("error", msg) := by
  have hErr : (scanPythonCode src).hasErrors = true := by
    unfold scanPythonCode
    cases hv : validateSyntax src with
    | mk valid errMsg =>
      cases valid
      · rfl
      · rcases hd with ⟨n, hn, hshape⟩ | ⟨n, hn, himp⟩
        · show decide ((checkSecurity src).length > 0) = true
          rw [decide_eq_true_eq]
          have hne : (walkBFS [m]).flatMap (nodeIssues (splitLines src.text)) ≠ [] := by
            refine flatMap_ne_nil_of_mem hn ?_
            rcases hshape with ⟨ln, args, ⟨l2, rfl⟩ | ⟨l2, rfl⟩ | ⟨l2, l3, rfl⟩⟩
            · exact nodeIssues_exec_ne _ _ _ _
            · exact nodeIssues_eval_ne _ _ _ _
            · exact nodeIssues_os_system_ne _ _ _ _ _
          simp only [checkSecurity, checkDangerousFunctions, hm, List.length_map]
          exact List.length_pos.mpr hne
        · exfalso
          unfold validateSyntax at hv
          rw [hm] at hv
          simp only [] at hv
          rcases hfind : (walkBFS [m]).findSome? importMessage with _ | msg
          · rw [List.findSome?_eq_none_iff] at hfind
            rw [hfind n hn] at himp
            simp at himp
          · rw [hfind] at hv
            simp at hv
  simp only [generateDiagramGate]
  rw [hErr]
  exact ⟨_, rfl⟩

/-- Witness for C1 (amended) at the concrete source `exec("x")`. -/
theorem c1_scan_gate_amended_witness :
    ∃ msg, generateDiagramGate srcExecCall "png" = some ("error", msg) :=
  c1_scan_gate_amended srcExecCall "png"
    (.module [.exprStmt 1 (.call 1 (.name 1 "exec") [.constant 1 "x"])]) rfl
    (Or.inl ⟨.call 1 (.name 1 "exec") [.constant 1 "x"],
      by simp [walkBFS, walkBFSAux, PyNode.children, PyNode.sizeList, PyNode.size],
      1, [.constant 1 "x"], Or.inl ⟨1, rfl⟩⟩)

/-! ## Helper lemmas: success shape of `applyGraphEditIntent` -/

theorem applyIntent_success_inv {g : GraphModel} {intent : EditIntent}
    {sel : Option SelectionPayload} {g' : GraphModel} {ni : NormalizedEditIntent}
    (h : applyGraphEditIntent g intent sel = (g', ni, none)) :
    ∃ a0 action rs es,
      optNonblank intent.action = some a0 ∧
      action = lowerStr (pystrip a0) ∧
      (normalizeGraphModel g).status = "success" ∧
      applyEditAction action (normalizeGraphModel g).resources
        (normalizeGraphModel g).edges intent (normalizeSelectedComponent sel) =
        Except.ok (rs, es, ni) ∧
      g' = buildSuccessGraph action rs es := by
  simp only [applyGraphEditIntent] at h
  split at h
  · have := congrArg (·.2.2) h
    simp at this
  · rename_i hstatus
    split at h
    · have := congrArg (·.2.2) h
      simp at this
    · rename_i a0 ha0
      split at h
      · have := congrArg (·.2.2) h
        simp at this
      · rename_i res rs es ni2 hact
        refine ⟨a0, lowerStr (pystrip a0), rs, es, ha0, rfl, by simpa using hstatus, ?_, ?_⟩
        · rw [hact]
          have h2 := congrArg (·.2.1) h
          simp at h2
          rw [h2]
        · have h1 := congrArg (·.1) h
          simp at h1
          rw [h1]

/-! ## Helper lemmas: `unresolvedOf` -/

theorem mem_unresolvedOf {f : String} {rs : List ResourceNode}
    {es : List DependencyEdge} :
    f ∈ unresolvedOf rs es ↔ f ∈ es.map (·.fromName) ∧ f ∉ symbolsOf rs := by
  simp [unresolvedOf, mem_sortedDistinct, List.mem_filter]

theorem unresolvedOf_congr {rs₁ rs₂ : List ResourceNode}
    {es₁ es₂ : List DependencyEdge} (hrs : symbolsOf rs₁ = symbolsOf rs₂)
    (hes : ∀ x, x ∈ es₁.map (·.fromName) ↔ x ∈ es₂.map (·.fromName)) :
    unresolvedOf rs₁ es₁ = unresolvedOf rs₂ es₂ := by
  unfold unresolvedOf
  refine sortedDistinct_congr ?_
  intro x
  simp only [List.mem_filter, decide_eq_true_eq, hrs]
  constructor
  · rintro ⟨h1, h2⟩
    exact ⟨(hes x).mp h1, h2⟩
  · rintro ⟨h1, h2⟩
    exact ⟨(hes x).mpr h1, h2⟩

theorem sync_symbols (rs : List ResourceNode) (es : List DependencyEdge) :
    symbolsOf (syncResourceDependencies rs es) = symbolsOf rs := by
  induction rs with
  | nil => rfl
  | cons r rest ih =>
    simp only [syncResourceDependencies, symbolsOf, List.map_cons] at *
    rw [ih]
    congr 1
    split <;> rfl

/-! ## Claim C4 -/

/-- Counterexample to C4 as stated: an `apply_edit` call whose intent carries
an unsupported action errors out and returns, as `graphModel`, the normalized
input graph — which retains the duplicated `(a, b, k)` edge, so two edges of
the returned graph share the same `(from, to, kind)` triple. -/
theorem c4_dedupe_counterexample :
    (mcpApplyEdit dupEdgeGraph { action := some "noop" } none).status = "error" ∧
    (mcpApplyEdit dupEdgeGraph { action := some "noop" } none).graphModel.edges =
      [⟨"a", "b", "k"⟩, ⟨"a", "b", "k"⟩] ∧
    ¬ edgeKeysNodup
      (mcpApplyEdit dupEdgeGraph { action := some "noop" } none).graphModel.edges := by
  refine ⟨rfl, rfl, ?_⟩
  intro h
  rw [show (mcpApplyEdit dupEdgeGraph { action := some "noop" } none).graphModel.edges =
    [⟨"a", "b", "k"⟩, ⟨"a", "b", "k"⟩] from rfl] at h
  simp [edgeKeysNodup, edgeKey] at h

/-- C4 (amended): after any *successful* `apply_edit` call, no two edges of
the returned graph model share the same `(from, to, kind)` triple (an errored
call returns the normalized input unchanged, which may retain duplicates). -/
theorem c4_dedupe_invariant_amended (g : GraphModel) (intent : EditIntent)
    (sel : Option SelectionPayload)
    (h : (mcpApplyEdit g intent sel).status = "success") :
    edgeKeysNodup (mcpApplyEdit g intent sel).graphModel.edges := by
  simp only [mcpApplyEdit] at h ⊢
  rcases happly : applyGraphEditIntent (normalizeGraphModel g) intent
    (normalizeSelectedComponent sel) with ⟨next, ni, err⟩
  cases err with
  | some e =>
    rw [happly] at h
    simp at h
  | none =>
    obtain ⟨a0, action, rs, es, -, -, -, -, hshape⟩ := applyIntent_success_inv happly
    simp only [hshape]
    exact edgeKeysNodup_dedupeEdges es

/-- Witness for C4 (amended): a successful `add_dependency` call on the
duplicated-edge payload returns a deduplicated edge list. -/
theorem c4_dedupe_invariant_amended_witness :
    edgeKeysNodup
      (mcpApplyEdit dupEdgeGraph
        { action := some "add_dependency", fromName := some "x", toName := some "y" }
        none).graphModel.edges :=
  c4_dedupe_invariant_amended dupEdgeGraph
    { action := some "add_dependency", fromName := some "x", toName := some "y" }
    none (by rfl)

/-! ## Claim C5 -/

/-- C5: in every GraphModel produced by graph normalization, by the Bicep
parser, or by a successful edit application, `unresolvedDependencies` is the
sorted distinct set of edge `from` values for which no resource of the model
has that symbolic name; equivalently, for every edge, its `from` is a member
of `unresolvedDependencies` iff no resource has that name. -/
theorem c5_unresolved_invariant :
    (∀ g : GraphModel,
      (normalizeGraphModel g).unresolvedDependencies =
        sortedDistinct (((normalizeGraphModel g).edges.map (·.fromName)).filter
          (fun f => decide (¬ ∃ r ∈ (normalizeGraphModel g).resources,
            r.symbolicName = f))) ∧
      ∀ e ∈ (normalizeGraphModel g).edges,
        (e.fromName ∈ (normalizeGraphModel g).unresolvedDependencies ↔
          ¬ ∃ r ∈ (normalizeGraphModel g).resources, r.symbolicName = e.fromName)) ∧
    (∀ s : String,
      (parseBicepGraph s).unresolvedDependencies =
        sortedDistinct (((parseBicepGraph s).edges.map (·.fromName)).filter
          (fun f => decide (¬ ∃ r ∈ (parseBicepGraph s).resources,
            r.symbolicName = f))) ∧
      ∀ e ∈ (parseBicepGraph s).edges,
        (e.fromName ∈ (parseBicepGraph s).unresolvedDependencies ↔
          ¬ ∃ r ∈ (parseBicepGraph s).resources, r.symbolicName = e.fromName)) ∧
    (∀ (g : GraphModel) (intent : EditIntent) (sel : Option SelectionPayload)
      (g' : GraphModel) (ni : NormalizedEditIntent),
      applyGraphEditIntent g intent sel = (g', ni, none) →
      g'.unresolvedDependencies =
        sortedDistinct ((g'.edges.map (·.fromName)).filter
          (fun f => decide (¬ ∃ r ∈ g'.resources, r.symbolicName = f))) ∧
      ∀ e ∈ g'.edges,
        (e.fromName ∈ g'.unresolvedDependencies ↔
          ¬ ∃ r ∈ g'.resources, r.symbolicName = e.fromName)) := by
  have hfilter : ∀ (rs : List ResourceNode) (es : List DependencyEdge),
      unresolvedOf rs es =
        sortedDistinct ((es.map (·.fromName)).filter
          (fun f => decide (¬ ∃ r ∈ rs, r.symbolicName = f))) := by
    intro rs es
    unfold unresolvedOf
    refine congrArg sortedDistinct (List.filter_congr ?_)
    intro x _
    simp [symbolsOf, List.mem_map]
  have hiff : ∀ (rs : List ResourceNode) (es : List DependencyEdge),
      ∀ e ∈ es, (e.fromName ∈ unresolvedOf rs es ↔
        ¬ ∃ r ∈ rs, r.symbolicName = e.fromName) := by
    intro rs es e he
    rw [mem_unresolvedOf]
    constructor
    · rintro ⟨-, h2⟩ ⟨r, hr, hname⟩
      exact h2 (hname ▸ List.mem_map_of_mem _ hr)
    · intro h2
      refine ⟨List.mem_map_of_mem _ he, ?_⟩
      intro hmem
      obtain ⟨r, hr, hname⟩ := List.mem_map.mp hmem
      exact h2 ⟨r, hr, hname⟩
  refine ⟨?_, ?_, ?_⟩
  · intro g
    exact ⟨hfilter _ _, hiff _ _⟩
  · intro s
    have hshape : (parseBicepGraph s).unresolvedDependencies =
        unresolvedOf (parseBicepGraph s).resources (parseBicepGraph s).edges := by
      simp only [parseBicepGraph]
      split
      · rfl
      · split <;> rfl
    refine ⟨hshape.trans (hfilter _ _), ?_⟩
    intro e he
    rw [hshape]
    exact hiff _ _ e he
  · intro g intent sel g' ni h
    obtain ⟨a0, action, rs, es, -, -, -, -, hshape⟩ := applyIntent_success_inv h
    subst hshape
    exact ⟨hfilter _ _, hiff _ _⟩

/-- Witness for C5 at a concrete successful edit application. -/
theorem c5_unresolved_invariant_witness :
    (applyGraphEditIntent renameWitnessGraph (renameIntent "stg" "storage")
        none).1.unresolvedDependencies =
      sortedDistinct ((((applyGraphEditIntent renameWitnessGraph
          (renameIntent "stg" "storage") none).1.edges.map (·.fromName)).filter
        (fun f => decide (¬ ∃ r ∈ (applyGraphEditIntent renameWitnessGraph
          (renameIntent "stg" "storage") none).1.resources,
            r.symbolicName = f)))) ∧
    ∀ e ∈ (applyGraphEditIntent renameWitnessGraph (renameIntent "stg" "storage")
        none).1.edges,
      (e.fromName ∈ (applyGraphEditIntent renameWitnessGraph
          (renameIntent "stg" "storage") none).1.unresolvedDependencies ↔
        ¬ ∃ r ∈ (applyGraphEditIntent renameWitnessGraph
          (renameIntent "stg" "storage") none).1.resources,
            r.symbolicName = e.fromName) :=
  c5_unresolved_invariant.2.2 renameWitnessGraph (renameIntent "stg" "storage") none
    (applyGraphEditIntent renameWitnessGraph (renameIntent "stg" "storage") none).1
    (applyGraphEditIntent renameWitnessGraph (renameIntent "stg" "storage") none).2.1
    (by rfl)

/-! ## Helper lemmas: reducing `applyGraphEditIntent` -/

theorem optNonblank_some_of_strippedNonempty {x : String} (hx : strippedNonempty x) :
    optNonblank (some x) = some x := by
  show (if pystrip x = "" then none else some x : Option String) = some x
  rw [hx.1]
  exact if_neg hx.2

theorem applyIntent_reduce {g : GraphModel} {intent : EditIntent}
    {sel : Option SelectionPayload} {a0 : String}
    (hact : optNonblank intent.action = some a0)
    (hstatus : (normalizeGraphModel g).status = "success") :
    applyGraphEditIntent g intent sel =
      (match applyEditAction (lowerStr (pystrip a0))
          (normalizeGraphModel g).resources (normalizeGraphModel g).edges intent
          (normalizeSelectedComponent sel) with
       | .error e =>
         (normalizeGraphModel g, { action := lowerStr (pystrip a0) }, some e)
       | .ok (rs, es, ni) =>
         (buildSuccessGraph (lowerStr (pystrip a0)) rs es, ni, none)) := by
  simp only [applyGraphEditIntent, hact]
  rw [if_neg (by simp [hstatus])]

theorem actionDependency_remove_missing {edges : List DependencyEdge}
    {intent : EditIntent} {f t k : String}
    (hfrom : intent.fromName = some f) (hto : intent.toName = some t)
    (hkind : intent.edgeKind = some k)
    (hf : strippedNonempty f) (ht : strippedNonempty t) (hk : strippedNonempty k)
    (hnomatch : ∀ e ∈ edges, edgeKey e ≠ (f, t, k))
    (resources : List ResourceNode) (symName : Option String)
    (nsel : Option SelectionPayload) (ni : NormalizedEditIntent) :
    actionDependency false resources edges symName intent nsel ni =
      .ok (resources, edges,
        { ni with fromName := some f, toName := some t, edgeKind := some k }) := by
  have hOptF : optNonblank intent.fromName = some f := by
    rw [hfrom]
    exact optNonblank_some_of_strippedNonempty hf
  have hOptT : optNonblank intent.toName = some t := by
    rw [hto]
    exact optNonblank_some_of_strippedNonempty ht
  have hOptK : optNonblank intent.edgeKind = some k := by
    rw [hkind]
    exact optNonblank_some_of_strippedNonempty hk
  have hfil : edges.filter (fun e => decide (edgeKey e ≠ (f, t, k))) = edges :=
    List.filter_eq_self.mpr (fun e he => decide_eq_true (hnomatch e he))
  have hRF : resolveEdgeFrom intent nsel = some f := by
    simp [resolveEdgeFrom, hOptF]
  have hRT : resolveEdgeTo intent nsel symName = some t := by
    simp [resolveEdgeTo, hOptT]
  simp [actionDependency, hRF, hRT, hOptK, hf.1, ht.1, hk.1, hfil]
  exact hnomatch

/-! ## Claim C10 -/

/-- C10: a `remove_dependency` edit whose resolved `(from, to, kind)` triple
matches no edge of the normalized graph succeeds — no error is returned — and
the returned graph is the normalized input graph after edge deduplication and
`dependsOn` recomputation, with `unresolvedDependencies` unchanged. -/
theorem c10_remove_dependency_missing_noop (g : GraphModel) (intent : EditIntent)
    (f t k : String)
    (hact : intent.action = some "remove_dependency")
    (hfrom : intent.fromName = some f) (hto : intent.toName = some t)
    (hkind : intent.edgeKind = some k)
    (hf : strippedNonempty f) (ht : strippedNonempty t) (hk : strippedNonempty k)
    (hstatus : (normalizeGraphModel g).status = "success")
    (hnomatch : ∀ e ∈ (normalizeGraphModel g).edges, edgeKey e ≠ (f, t, k)) :
    (applyGraphEditIntent g intent none).2.2 = none ∧
    (applyGraphEditIntent g intent none).1.status = "success" ∧
    (applyGraphEditIntent g intent none).1.edges =
      dedupeEdges (normalizeGraphModel g).edges ∧
    (applyGraphEditIntent g intent none).1.resources =
      syncResourceDependencies (normalizeGraphModel g).resources
        (dedupeEdges (normalizeGraphModel g).edges) ∧
    (applyGraphEditIntent g intent none).1.unresolvedDependencies =
      (normalizeGraphModel g).unresolvedDependencies := by
  have hOptA : optNonblank intent.action = some "remove_dependency" := by
    rw [hact]
    rfl
  have hA : applyGraphEditIntent g intent none =
      (buildSuccessGraph "remove_dependency" (normalizeGraphModel g).resources
        (normalizeGraphModel g).edges,
       { action := "remove_dependency", fromName := some f, toName := some t,
         edgeKind := some k }, none) := by
    rw [applyIntent_reduce hOptA hstatus]
    have hdisp : applyEditAction (lowerStr (pystrip "remove_dependency"))
        (normalizeGraphModel g).resources (normalizeGraphModel g).edges intent
        (normalizeSelectedComponent none) =
        actionDependency false (normalizeGraphModel g).resources
          (normalizeGraphModel g).edges (resolveSymbolicName intent none) intent
          none { action := "remove_dependency" } := rfl
    rw [hdisp, actionDependency_remove_missing hfrom hto hkind hf ht hk hnomatch]
    rfl
  rw [hA]
  refine ⟨rfl, rfl, rfl, rfl, ?_⟩
  show unresolvedOf
      (syncResourceDependencies (normalizeGraphModel g).resources
        (dedupeEdges (normalizeGraphModel g).edges))
      (dedupeEdges (normalizeGraphModel g).edges) =
    (normalizeGraphModel g).unresolvedDependencies
  have hN : (normalizeGraphModel g).unresolvedDependencies =
      unresolvedOf (normalizeGraphModel g).resources (normalizeGraphModel g).edges := rfl
  rw [hN]
  exact unresolvedOf_congr (sync_symbols _ _) (fun x => mem_fromName_dedupeEdges)

/-- Witness for C10: removing the absent dependency `(x, y, dependsOn)` from
the duplicated-edge payload succeeds and leaves the deduplicated graph. -/
theorem c10_remove_dependency_missing_noop_witness :
    (applyGraphEditIntent dupEdgeGraph
        { action := some "remove_dependency", fromName := some "x",
          toName := some "y", edgeKind := some "dependsOn" } none).2.2 = none ∧
    (applyGraphEditIntent dupEdgeGraph
        { action := some "remove_dependency", fromName := some "x",
          toName := some "y", edgeKind := some "dependsOn" } none).1.status =
      "success" ∧
    (applyGraphEditIntent dupEdgeGraph
        { action := some "remove_dependency", fromName := some "x",
          toName := some "y", edgeKind := some "dependsOn" } none).1.edges =
      dedupeEdges (normalizeGraphModel dupEdgeGraph).edges ∧
    (applyGraphEditIntent dupEdgeGraph
        { action := some "remove_dependency", fromName := some "x",
          toName := some "y", edgeKind := some "dependsOn" } none).1.resources =
      syncResourceDependencies (normalizeGraphModel dupEdgeGraph).resources
        (dedupeEdges (normalizeGraphModel dupEdgeGraph).edges) ∧
    (applyGraphEditIntent dupEdgeGraph
        { action := some "remove_dependency", fromName := some "x",
          toName := some "y", edgeKind := some "dependsOn" }
        none).1.unresolvedDependencies =
      (normalizeGraphModel dupEdgeGraph).unresolvedDependencies :=
  c10_remove_dependency_missing_noop dupEdgeGraph
    { action := some "remove_dependency", fromName := some "x",
      toName := some "y", edgeKind := some "dependsOn" }
    "x" "y" "dependsOn" rfl rfl rfl rfl (by decide) (by decide) (by decide)
    (by decide) (by decide)

/-! ## Helper lemmas: per-action preservation -/

theorem setTypeFirst_symbols (sym ty : String) (rs : List ResourceNode) :
    symbolsOf (setTypeFirst sym ty rs) = symbolsOf rs := by
  induction rs with
  | nil => rfl
  | cons r rest ih =>
    unfold setTypeFirst
    split
    · rfl
    · simp only [symbolsOf, List.map_cons] at *
      rw [ih]

theorem depsFold_strippedNonempty (payload : List String) :
    ∀ acc, (∀ x ∈ acc, strippedNonempty x) →
    ∀ x ∈ payload.foldl (fun acc d =>
        let n := pystrip d
        if n != "" && !acc.contains n then acc ++ [n] else acc) acc,
      strippedNonempty x := by
  induction payload with
  | nil => intro acc hacc x hx; exact hacc x hx
  | cons d rest ih =>
    intro acc hacc x hx
    simp only [List.foldl_cons] at hx
    refine ih _ ?_ x hx
    intro y hy
    split at hy
    · rcases List.mem_append.mp hy with h1 | h1
      · exact hacc y h1
      · rename_i hcond
        simp only [List.mem_singleton] at h1
        subst h1
        refine ⟨pystrip_idem d, ?_⟩
        simp only [Bool.and_eq_true, bne_iff_ne, ne_eq] at hcond
        exact hcond.1
    · exact hacc y hy

theorem symbols_map_rename (rs : List ResourceNode) (oldName newName : String) :
    symbolsOf (rs.map (fun r =>
      if r.symbolicName == oldName then { r with symbolicName := newName } else r)) =
    (symbolsOf rs).map (fun x => if x = oldName then newName else x) := by
  induction rs with
  | nil => rfl
  | cons r rest ih =>
    simp only [symbolsOf, List.map_cons] at *
    rw [ih]
    congr 1
    by_cases h : r.symbolicName = oldName
    · simp [h]
    · simp [h]

theorem nodup_subst_names {names : List String} {oldName newName : String}
    (hnodup : names.Nodup)
    (hcol : ∀ x ∈ names, ¬(x = newName ∧ x ≠ oldName)) :
    (names.map (fun x => if x = oldName then newName else x)).Nodup := by
  induction names with
  | nil => exact List.nodup_nil
  | cons x xs ih =>
    simp only [List.map_cons, List.nodup_cons] at hnodup ⊢
    refine ⟨?_, ih hnodup.2 (fun y hy => hcol y (List.mem_cons_of_mem x hy))⟩
    intro hmem
    obtain ⟨y, hy, hyx⟩ := List.mem_map.mp hmem
    by_cases hx : x = oldName
    · rw [if_pos hx] at hyx
      by_cases hy' : y = oldName
      · exact hnodup.1 (hx ▸ hy' ▸ hy)
      · rw [if_neg hy'] at hyx
        exact (hcol y (List.mem_cons_of_mem x hy)) ⟨hyx, hy'⟩
    · rw [if_neg hx] at hyx
      by_cases hy' : y = oldName
      · rw [if_pos hy'] at hyx
        exact (hcol x (List.mem_cons_self x xs)) ⟨hyx.symm, hx⟩
      · rw [if_neg hy'] at hyx
        exact hnodup.1 (hyx ▸ hy)

theorem normalizeSelectedComponent_wf {sel : Option SelectionPayload}
    {sc : SelectionPayload} (h : normalizeSelectedComponent sel = some sc) :
    (∀ v, sc.symbolicName = some v → strippedNonempty v) ∧
    (∀ v, sc.fromName = some v → strippedNonempty v) ∧
    (∀ v, sc.toName = some v → strippedNonempty v) := by
  cases sel with
  | none => simp [normalizeSelectedComponent] at h
  | some raw =>
    simp only [normalizeSelectedComponent] at h
    by_cases hck : lowerStr (pystrip raw.componentKind) = "resource"
    · rw [if_pos hck] at h
      rcases hsn : raw.symbolicName with _ | sn
      · rw [hsn] at h
        simp at h
      · rw [hsn] at h
        simp only [] at h
        by_cases hblank : pystrip sn = ""
        · rw [if_pos hblank] at h
          simp at h
        · rw [if_neg hblank] at h
          simp only [Option.some.injEq] at h
          subst h
          refine ⟨?_, ?_, ?_⟩
          · intro v hv
            simp only [Option.some.injEq] at hv
            subst hv
            exact strippedNonempty_of_pystrip hblank
          · intro v hv
            simp at hv
          · intro v hv
            simp at hv
    · rw [if_neg hck] at h
      by_cases hck2 : lowerStr (pystrip raw.componentKind) = "edge"
      · rw [if_pos hck2] at h
        rcases hfrom : raw.fromName with _ | f0
        · rw [hfrom] at h
          simp at h
        · rcases hto : raw.toName with _ | t0
          · rw [hfrom, hto] at h
            simp at h
          · rw [hfrom, hto] at h
            simp only [] at h
            by_cases hblank : pystrip f0 = "" ∨ pystrip t0 = ""
            · rw [if_pos (by simpa using hblank)] at h
              simp at h
            · rw [if_neg (by simpa using hblank)] at h
              simp only [Option.some.injEq] at h
              subst h
              rw [not_or] at hblank
              refine ⟨?_, ?_, ?_⟩
              · intro v hv
                simp at hv
              · intro v hv
                simp only [Option.some.injEq] at hv
                subst hv
                exact strippedNonempty_of_pystrip hblank.1
              · intro v hv
                simp only [Option.some.injEq] at hv
                subst hv
                exact strippedNonempty_of_pystrip hblank.2
      · rw [if_neg hck2] at h
        simp at h

theorem resolveSymbolicName_wf {intent : EditIntent} {sel : Option SelectionPayload}
    {v : String}
    (h : resolveSymbolicName intent (normalizeSelectedComponent sel) = some v) :
    strippedNonempty v := by
  unfold resolveSymbolicName at h
  rcases hopt : optNonblank intent.symbolicName with _ | s
  · rw [hopt] at h
    rcases hsel : normalizeSelectedComponent sel with _ | sc
    · rw [hsel] at h
      simp at h
    · rw [hsel] at h
      replace h : Option.map pystrip
          (if sc.componentKind = "resource" then sc.symbolicName else none) =
          some v := h
      by_cases hck : sc.componentKind = "resource"
      · rw [if_pos hck] at h
        rcases hsn : sc.symbolicName with _ | sn
        · rw [hsn] at h
          simp at h
        · rw [hsn] at h
          simp only [Option.map_some', Option.some.injEq] at h
          have hwf := ((normalizeSelectedComponent_wf hsel).1 sn hsn)
          subst h
          rw [hwf.1]
          exact hwf
      · rw [if_neg hck] at h
        simp at h
  · rw [hopt] at h
    replace h : Option.map pystrip (some s) = some v := h
    simp only [Option.map_some', Option.some.injEq] at h
    subst h
    refine strippedNonempty_of_pystrip ?_
    unfold optNonblank at hopt
    split at hopt
    · split at hopt
      · simp at hopt
      · rename_i s0 hs0
        simp only [Option.some.injEq] at hopt
        subst hopt
        exact hs0
    · simp at hopt
theorem optNonblank_some_inv {o : Option String} {x : String}
    (h : optNonblank o = some x) : o = some x ∧ pystrip x ≠ "" := by
  unfold optNonblank at h
  split at h
  · split at h
    · simp at h
    · rename_i hne
      simp only [Option.some.injEq] at h
      subst h
      exact ⟨rfl, hne⟩
  · simp at h

theorem resolveEdgeFrom_wf {intent : EditIntent} {sel : Option SelectionPayload}
    {f1 : String}
    (h : resolveEdgeFrom intent (normalizeSelectedComponent sel) = some f1) :
    pystrip f1 ≠ "" := by
  unfold resolveEdgeFrom at h
  split at h
  · rename_i s hs
    simp only [Option.some.injEq] at h
    subst h
    exact (optNonblank_some_inv hs).2
  · split at h
    · rename_i sc hsc
      split at h
      · have hwf := (normalizeSelectedComponent_wf hsc).2.1 f1 h
        rw [hwf.1]
        exact hwf.2
      · simp at h
    · simp at h

theorem resolveEdgeTo_wf {intent : EditIntent} {sel : Option SelectionPayload}
    {symName : Option String} {t1 : String}
    (hsym : ∀ v, symName = some v → strippedNonempty v)
    (h : resolveEdgeTo intent (normalizeSelectedComponent sel) symName = some t1) :
    pystrip t1 ≠ "" := by
  unfold resolveEdgeTo at h
  split at h
  · rename_i s hs
    simp only [Option.some.injEq] at h
    subst h
    exact (optNonblank_some_inv hs).2
  · split at h
    · rename_i sc hsc
      split at h
      · have hwf := (normalizeSelectedComponent_wf hsc).2.2 t1 h
        rw [hwf.1]
        exact hwf.2
      · have hwf := hsym t1 h
        rw [hwf.1]
        exact hwf.2
    · have hwf := hsym t1 h
      rw [hwf.1]
      exact hwf.2

theorem renameEdgeEndpoints_fromName (oldName newName : String) (e : DependencyEdge) :
    (renameEdgeEndpoints oldName newName e).fromName =
      if e.fromName == oldName then newName else e.fromName := by
  unfold renameEdgeEndpoints
  split <;> (dsimp only []; split <;> rfl)

theorem applyEditAction_ok_preserves {action : String} {rs : List ResourceNode}
    {es : List DependencyEdge} {intent : EditIntent} {sel : Option SelectionPayload}
    {rs' : List ResourceNode} {es' : List DependencyEdge} {ni : NormalizedEditIntent}
    (h : applyEditAction action rs es intent (normalizeSelectedComponent sel) =
      .ok (rs', es', ni)) :
    ((symbolsOf rs).Nodup → (symbolsOf rs').Nodup) ∧
    ((∀ e ∈ es, strippedNonempty e.fromName) →
      ∀ e ∈ es', strippedNonempty e.fromName) := by
  unfold applyEditAction at h
  split at h
  · -- add_resource
    unfold actionAddResource at h
    try dsimp only [] at h
    split at h
    · simp at h
    · rename_i rp hrp
      split at h
      · simp at h
      · simp at h
      · rename_i sym0 ty0 hsym hty
        try dsimp only [] at h
        split at h
        · simp at h
        · rename_i hnoexist
          simp only [Except.ok.injEq, Prod.mk.injEq] at h
          obtain ⟨h1, h2, -⟩ := h
          subst h1
          subst h2
          constructor
          · intro hnodup
            have hnotin : pystrip sym0 ∉ symbolsOf rs := by
              intro hmem
              obtain ⟨r, hr, hrname⟩ := List.mem_map.mp hmem
              exact hnoexist (List.any_eq_true.mpr ⟨r, hr, by simp [hrname]⟩)
            simp only [symbolsOf, List.map_append, List.map_cons, List.map_nil]
            rw [List.nodup_append]
            refine ⟨hnodup, List.nodup_singleton _, ?_⟩
            intro x hx hx2
            simp only [List.mem_singleton] at hx2
            exact hnotin (hx2 ▸ hx)
          · intro hWF e he
            rcases List.mem_append.mp he with h1 | h1
            · exact hWF e h1
            · obtain ⟨d, hd, hde⟩ := List.mem_map.mp h1
              have hdwf := depsFold_strippedNonempty rp.dependsOn [] (by simp) d hd
              rw [← hde]
              exact hdwf
  · split at h
    · -- remove_resource
      unfold actionRemoveResource at h
      try dsimp only [] at h
      split at h
      · simp at h
      · split at h
        · simp at h
        · simp only [Except.ok.injEq, Prod.mk.injEq] at h
          obtain ⟨h1, h2, -⟩ := h
          subst h1
          subst h2
          constructor
          · intro hnodup
            exact hnodup.sublist (List.Sublist.map _ (List.filter_sublist rs))
          · intro hWF e he
            exact hWF e (List.mem_of_mem_filter he)
    · split at h
      · -- set_resource_type
        unfold actionSetResourceType at h
        try dsimp only [] at h
        split at h
        · simp at h
        · split at h
          · simp at h
          · rename_i sym ty0 hty
            try dsimp only [] at h
            split at h
            · simp at h
            · simp only [Except.ok.injEq, Prod.mk.injEq] at h
              obtain ⟨h1, h2, -⟩ := h
              subst h1
              subst h2
              constructor
              · intro hnodup
                rw [setTypeFirst_symbols]
                exact hnodup
              · intro hWF
                exact hWF
      · split at h
        · -- rename_resource
          unfold actionRenameResource at h
          try dsimp only [] at h
          split at h
          · simp at h
          · split at h
            · simp at h
            · rename_i sym newName0 hnew0
              try dsimp only [] at h
              split at h
              · simp at h
              · rename_i hcol
                split at h
                · simp at h
                · rename_i hexists
                  simp only [Except.ok.injEq, Prod.mk.injEq] at h
                  obtain ⟨h1, h2, -⟩ := h
                  subst h1
                  subst h2
                  have hnewwf : strippedNonempty (pystrip newName0) :=
                    strippedNonempty_of_pystrip (optNonblank_some_inv hnew0).2
                  constructor
                  · intro hnodup
                    rw [symbols_map_rename]
                    refine nodup_subst_names hnodup ?_
                    intro x hx hcontra
                    obtain ⟨r, hr, hrname⟩ := List.mem_map.mp hx
                    refine hcol (List.any_eq_true.mpr ⟨r, hr, ?_⟩)
                    simp only [hrname, hcontra.1, Bool.and_eq_true, beq_iff_eq,
                      bne_iff_ne, ne_eq]
                    exact ⟨trivial, fun hEq => hcontra.2 (hcontra.1.trans hEq)⟩
                  · intro hWF e' he'
                    obtain ⟨e, he, hee⟩ := List.mem_map.mp he'
                    rw [← hee, renameEdgeEndpoints_fromName]
                    split
                    · exact hnewwf
                    · exact hWF e he
        · split at h
          · -- add_dependency
            unfold actionDependency at h
            try dsimp only [] at h
            split at h
            · simp at h
            · rename_i f1 hf1
              split at h
              · simp at h
              · rename_i t1 ht1
                try dsimp only [] at h
                rw [if_pos rfl] at h
                have hfwf : strippedNonempty (pystrip f1) :=
                  strippedNonempty_of_pystrip (resolveEdgeFrom_wf hf1)
                split at h
                · simp only [Except.ok.injEq, Prod.mk.injEq] at h
                  obtain ⟨h1, h2, -⟩ := h
                  subst h1
                  subst h2
                  refine ⟨fun hnodup => hnodup, ?_⟩
                  intro hWF e he
                  rcases List.mem_append.mp he with h1 | h1
                  · exact hWF e h1
                  · simp only [List.mem_singleton] at h1
                    subst h1
                    exact hfwf
                · simp only [Except.ok.injEq, Prod.mk.injEq] at h
                  obtain ⟨h1, h2, -⟩ := h
                  subst h1
                  subst h2
                  exact ⟨fun hnodup => hnodup, fun hWF => hWF⟩
          · split at h
            · -- remove_dependency
              unfold actionDependency at h
              try dsimp only [] at h
              split at h
              · simp at h
              · split at h
                · simp at h
                · try dsimp only [] at h
                  rw [if_neg (by simp)] at h
                  simp only [Except.ok.injEq, Prod.mk.injEq] at h
                  obtain ⟨h1, h2, -⟩ := h
                  subst h1
                  subst h2
                  refine ⟨fun hnodup => hnodup, ?_⟩
                  intro hWF e he
                  exact hWF e (List.mem_of_mem_filter he)
            · simp at h

/-! ## Helper lemmas: dependency synchronisation (towards C6) -/

theorem normalize_edges_fromWF (g : GraphModel) :
    ∀ e ∈ (normalizeGraphModel g).edges, strippedNonempty e.fromName := by
  intro e he
  simp only [normalizeGraphModel] at he
  obtain ⟨e0, he0, hne⟩ := List.mem_filterMap.mp he
  unfold normalizeEdge at hne
  split at hne
  · simp at hne
  · rename_i hfrom
    split at hne
    · simp at hne
    · simp only [Option.some.injEq] at hne
      rw [← hne]
      exact strippedNonempty_of_pystrip hfrom

theorem dedupe_fromWF {es : List DependencyEdge}
    (hWF : ∀ e ∈ es, strippedNonempty e.fromName) :
    ∀ e ∈ dedupeEdges es, strippedNonempty e.fromName := by
  intro e he
  have hmem : e.fromName ∈ (dedupeEdges es).map (·.fromName) :=
    List.mem_map_of_mem _ he
  obtain ⟨e2, he2, hfe⟩ := List.mem_map.mp (mem_fromName_dedupeEdges.mp hmem)
  rw [← hfe]
  exact hWF e2 he2

theorem sync_of_nodup {rs : List ResourceNode} (es : List DependencyEdge)
    (h : (symbolsOf rs).Nodup) :
    syncResourceDependencies rs es =
      rs.map (fun r => { r with dependsOn := syncedDependsOn r.symbolicName es }) := by
  induction rs with
  | nil => rfl
  | cons r rest ih =>
    simp only [symbolsOf, List.map_cons, List.nodup_cons] at h
    obtain ⟨hnot, hrest⟩ := h
    simp only [syncResourceDependencies, List.map_cons]
    rw [ih hrest]
    congr 1
    rw [if_neg]
    intro hsh
    obtain ⟨r2, hr2, hb⟩ := List.any_eq_true.mp hsh
    exact hnot (List.mem_map.mpr ⟨r2, hr2, beq_iff_eq.mp hb⟩)

theorem syncedDependsOn_eq {es : List DependencyEdge}
    (hWF : ∀ e ∈ es, strippedNonempty e.fromName) (sym : String) :
    syncedDependsOn sym es = sortedDistinct (derivedFroms es sym) := by
  unfold syncedDependsOn derivedFroms
  refine sortedDistinct_congr ?_
  intro x
  constructor
  · intro hx
    obtain ⟨hx1, -⟩ := List.mem_filter.mp hx
    obtain ⟨y, hy, hxy⟩ := List.mem_map.mp hx1
    obtain ⟨e, he, hye⟩ := List.mem_map.mp hy
    obtain ⟨heMem, hcond⟩ := List.mem_filter.mp he
    have hwf := hWF e heMem
    refine List.mem_map.mpr ⟨e, List.mem_filter.mpr ⟨heMem, ?_⟩, ?_⟩
    · simp only [Bool.and_eq_true] at hcond
      exact hcond.1
    · rw [← hye] at hxy
      rw [← hxy]
      exact hwf.1.symm
  · intro hx
    obtain ⟨e, he, hfx⟩ := List.mem_map.mp hx
    obtain ⟨heMem, hto⟩ := List.mem_filter.mp he
    have hwf := hWF e heMem
    refine List.mem_filter.mpr ⟨?_, ?_⟩
    · refine List.mem_map.mpr ⟨e.fromName, List.mem_map.mpr
        ⟨e, List.mem_filter.mpr ⟨heMem, ?_⟩, rfl⟩, by rw [hwf.1, hfx]⟩
      rw [Bool.and_eq_true]
      exact ⟨hto, bne_iff_ne.mpr hwf.2⟩
    · rw [← hfx]
      exact bne_iff_ne.mpr hwf.2

/-! ## Claim C6 -/

/-- Counterexample to C6 as stated: the input graph may carry two resources
sharing a symbolic name (normalization does not deduplicate names), and
`_sync_resource_dependencies` indexes resources by name in a dict that keeps
only the *last* one, so after a successful `add_resource` edit the earlier
duplicate ends with `dependsOn = []` even though an edge targets its name. -/
theorem c6_dependency_derivation_counterexample :
    (applyGraphEditIntent dupNameGraph
        { action := some "add_resource",
          resource := some { symbolicName := some "c", resourceType := some "T" } }
        none).2.2 = none ∧
    ¬ (∀ r ∈ (applyGraphEditIntent dupNameGraph
          { action := some "add_resource",
            resource := some { symbolicName := some "c", resourceType := some "T" } }
          none).1.resources,
        r.dependsOn = sortedDistinct (derivedFroms
          (applyGraphEditIntent dupNameGraph
            { action := some "add_resource",
              resource := some { symbolicName := some "c", resourceType := some "T" } }
            none).1.edges r.symbolicName)) := by
  decide

/-- C6, amended with the missing hypothesis: if the *normalized* input graph
has pairwise-distinct resource symbolic names, then after every successful
apply-edit action every resource `R` of the returned graph has `R.dependsOn`
equal to the sorted distinct list of `from` values of the returned edges whose
`to` equals `R.symbolicName`. -/
theorem c6_dependency_derivation_amended {g : GraphModel} {intent : EditIntent}
    {sel : Option SelectionPayload} {g2 : GraphModel} {ni : NormalizedEditIntent}
    (h : applyGraphEditIntent g intent sel = (g2, ni, none))
    (hnodup : (symbolsOf (normalizeGraphModel g).resources).Nodup) :
    ∀ r ∈ g2.resources,
      r.dependsOn = sortedDistinct (derivedFroms g2.edges r.symbolicName) := by
  obtain ⟨a0, action, rs, es, -, -, -, hok, hg2⟩ := applyIntent_success_inv h
  obtain ⟨hpn, hpw⟩ := applyEditAction_ok_preserves hok
  have hrsnodup : (symbolsOf rs).Nodup := hpn hnodup
  have hesWF : ∀ e ∈ es, strippedNonempty e.fromName :=
    hpw (normalize_edges_fromWF g)
  have hesWF2 : ∀ e ∈ dedupeEdges es, strippedNonempty e.fromName :=
    dedupe_fromWF hesWF
  subst hg2
  intro r hr
  simp only [buildSuccessGraph] at hr ⊢
  rw [sync_of_nodup (dedupeEdges es) hrsnodup] at hr
  obtain ⟨r0, -, hr0⟩ := List.mem_map.mp hr
  rw [← hr0]
  exact syncedDependsOn_eq hesWF2 r0.symbolicName

/-- Witness for the amended C6 at a concrete input: an `add_dependency` edit
on `renameWitnessGraph` succeeds and every returned resource satisfies the
derivation equation. -/
theorem c6_dependency_derivation_amended_witness :
    ((applyGraphEditIntent renameWitnessGraph
        { action := some "add_dependency",
          fromName := some "web", toName := some "stg" } none).1.resources.all
      (fun r => r.dependsOn == sortedDistinct (derivedFroms
        (applyGraphEditIntent renameWitnessGraph
          { action := some "add_dependency",
            fromName := some "web", toName := some "stg" } none).1.edges
        r.symbolicName))) = true := by
  have h : applyGraphEditIntent renameWitnessGraph
      { action := some "add_dependency",
        fromName := some "web", toName := some "stg" } none =
      ((applyGraphEditIntent renameWitnessGraph
          { action := some "add_dependency",
            fromName := some "web", toName := some "stg" } none).1,
        (applyGraphEditIntent renameWitnessGraph
          { action := some "add_dependency",
            fromName := some "web", toName := some "stg" } none).2.1, none) := by
    rfl
  have h1 := c6_dependency_derivation_amended h (by decide)
  rw [List.all_eq_true]
  intro r hr
  exact beq_iff_eq.mpr (h1 r hr)

/-! ## Helper lemmas: rename algebra (towards C7) -/

theorem renameEdgeEndpoints_toName (oldName newName : String) (e : DependencyEdge) :
    (renameEdgeEndpoints oldName newName e).toName =
      if e.toName == oldName then newName else e.toName := by
  obtain ⟨f, t, k⟩ := e
  by_cases h1 : f == oldName <;> by_cases h2 : t == oldName <;>
    simp [renameEdgeEndpoints, h1, h2]

theorem rename_rename_edge {oldName newName : String} (hne : oldName ≠ newName)
    {e : DependencyEdge} (hf : e.fromName ≠ newName) (ht : e.toName ≠ newName) :
    renameEdgeEndpoints newName oldName (renameEdgeEndpoints oldName newName e) = e := by
  obtain ⟨f, t, k⟩ := e
  simp only [DependencyEdge.mk.injEq] at *
  by_cases h1 : f = oldName <;> by_cases h2 : t = oldName <;>
    simp [renameEdgeEndpoints, h1, h2, hf, ht, Ne.symm hne]

theorem map_rename_rename {oldName newName : String} (hne : oldName ≠ newName)
    {es : List DependencyEdge}
    (hno : ∀ e ∈ es, e.fromName ≠ newName ∧ e.toName ≠ newName) :
    (es.map (renameEdgeEndpoints oldName newName)).map
      (renameEdgeEndpoints newName oldName) = es := by
  rw [List.map_map]
  have heq : ∀ e ∈ es,
      (renameEdgeEndpoints newName oldName ∘ renameEdgeEndpoints oldName newName) e =
        id e := fun e he => rename_rename_edge hne (hno e he).1 (hno e he).2
  rw [List.map_congr_left heq, List.map_id]

theorem edgeKey_rename (oldName newName : String) (e : DependencyEdge) :
    edgeKey (renameEdgeEndpoints oldName newName e) =
      ((if e.fromName = oldName then newName else e.fromName),
       (if e.toName = oldName then newName else e.toName), e.kind) := by
  obtain ⟨f, t, k⟩ := e
  by_cases h1 : f = oldName <;> by_cases h2 : t = oldName <;>
    simp [renameEdgeEndpoints, edgeKey, h1, h2]

theorem subst_inj {oldName newName x y : String} (hx : x ≠ newName) (hy : y ≠ newName)
    (h : (if x = oldName then newName else x) = (if y = oldName then newName else y)) :
    x = y := by
  by_cases h1 : x = oldName <;> by_cases h2 : y = oldName
  · exact h1.trans h2.symm
  · rw [if_pos h1, if_neg h2] at h
    exact absurd h.symm hy
  · rw [if_neg h1, if_pos h2] at h
    exact absurd h hx
  · rw [if_neg h1, if_neg h2] at h
    exact h

theorem edgeKeysNodup_map_rename {oldName newName : String}
    {es : List DependencyEdge} (hkeys : edgeKeysNodup es)
    (hno : ∀ e ∈ es, e.fromName ≠ newName ∧ e.toName ≠ newName) :
    edgeKeysNodup (es.map (renameEdgeEndpoints oldName newName)) := by
  unfold edgeKeysNodup at *
  rw [List.map_map]
  have heq : ∀ e ∈ es, (edgeKey ∘ renameEdgeEndpoints oldName newName) e =
      ((fun p => ((if p.1 = oldName then newName else p.1),
        (if p.2.1 = oldName then newName else p.2.1), p.2.2)) ∘ edgeKey) e :=
    fun e _ => edgeKey_rename oldName newName e
  rw [List.map_congr_left heq, ← List.map_map]
  refine List.Nodup.map_on ?_ hkeys
  intro k1 hk1 k2 hk2 hEq
  obtain ⟨e1, he1, hke1⟩ := List.mem_map.mp hk1
  obtain ⟨e2, he2, hke2⟩ := List.mem_map.mp hk2
  have h1f : k1.1 ≠ newName := by rw [← hke1]; exact (hno e1 he1).1
  have h1t : k1.2.1 ≠ newName := by rw [← hke1]; exact (hno e1 he1).2
  have h2f : k2.1 ≠ newName := by rw [← hke2]; exact (hno e2 he2).1
  have h2t : k2.2.1 ≠ newName := by rw [← hke2]; exact (hno e2 he2).2
  simp only [Prod.mk.injEq] at hEq
  obtain ⟨hA, hB, hC⟩ := hEq
  have hf := subst_inj h1f h2f hA
  have ht := subst_inj h1t h2t hB
  obtain ⟨a1, b1, c1⟩ := k1
  obtain ⟨a2, b2, c2⟩ := k2
  simp only at hf ht hC
  rw [hf, ht, hC]

theorem normalize_resources_WF (g : GraphModel) :
    ∀ r ∈ (normalizeGraphModel g).resources,
      strippedNonempty r.symbolicName ∧ strippedNonempty r.resourceType := by
  intro r hr
  simp only [normalizeGraphModel] at hr
  obtain ⟨r0, hr0, hnr⟩ := List.mem_filterMap.mp hr
  unfold normalizeResource at hnr
  split at hnr
  · simp at hnr
  · rename_i hname
    split at hnr
    · simp at hnr
    · rename_i hty
      simp only [Option.some.injEq] at hnr
      rw [← hnr]
      exact ⟨strippedNonempty_of_pystrip hname, strippedNonempty_of_pystrip hty⟩

theorem normalize_edges_WF (g : GraphModel) :
    ∀ e ∈ (normalizeGraphModel g).edges, EdgeWF e := by
  intro e he
  simp only [normalizeGraphModel] at he
  obtain ⟨e0, he0, hne⟩ := List.mem_filterMap.mp he
  unfold normalizeEdge at hne
  split at hne
  · simp at hne
  · rename_i hfrom
    split at hne
    · simp at hne
    · rename_i hto
      simp only [Option.some.injEq] at hne
      rw [← hne]
      refine ⟨strippedNonempty_of_pystrip hfrom, strippedNonempty_of_pystrip hto, ?_⟩
      dsimp only []
      split
      · exact ⟨rfl, by decide⟩
      · rename_i hkind
        exact strippedNonempty_of_pystrip hkind

theorem mem_sync_shape {rs : List ResourceNode} {es : List DependencyEdge}
    {r2 : ResourceNode} (h : r2 ∈ syncResourceDependencies rs es) :
    ∃ r ∈ rs, r2.symbolicName = r.symbolicName ∧ r2.resourceType = r.resourceType := by
  induction rs with
  | nil => simp [syncResourceDependencies] at h
  | cons r rest ih =>
    simp only [syncResourceDependencies] at h
    rcases List.mem_cons.mp h with h1 | h1
    · refine ⟨r, List.mem_cons_self r rest, ?_⟩
      rw [h1]
      split <;> exact ⟨rfl, rfl⟩
    · obtain ⟨r3, hr3, hsh⟩ := ih h1
      exact ⟨r3, List.mem_cons_of_mem r hr3, hsh⟩

theorem mem_dedupeEdges {e : DependencyEdge} {es : List DependencyEdge}
    (h : e ∈ dedupeEdges es) : e ∈ es :=
  mem_of_mem_dedupeEdgesGo h

theorem buildSuccessGraph_norm_fixed {action : String} {rs : List ResourceNode}
    {es : List DependencyEdge}
    (hrsWF : ∀ r ∈ rs, strippedNonempty r.symbolicName ∧ strippedNonempty r.resourceType)
    (hesWF : ∀ e ∈ es, EdgeWF e) :
    normalizeGraphModel (buildSuccessGraph action rs es) =
      buildSuccessGraph action rs es := by
  have hres : ∀ r ∈ syncResourceDependencies rs (dedupeEdges es),
      normalizeResource r = some r := by
    intro r hr
    obtain ⟨r0, hr0, hname, hty⟩ := mem_sync_shape hr
    have hWF := hrsWF r0 hr0
    unfold normalizeResource
    rw [if_neg (by rw [hname, hWF.1.1]; exact hWF.1.2),
        if_neg (by rw [hty, hWF.2.1]; exact hWF.2.2)]
    rw [hname, hty, hWF.1.1, hWF.2.1, ← hname, ← hty]
  have hedg : ∀ e ∈ dedupeEdges es, normalizeEdge e = some e := by
    intro e he
    have hWF := hesWF e (mem_dedupeEdges he)
    unfold normalizeEdge
    rw [if_neg (by rw [hWF.1.1]; exact hWF.1.2),
        if_neg (by rw [hWF.2.1.1]; exact hWF.2.1.2)]
    rw [hWF.1.1, hWF.2.1.1, if_neg (by rw [hWF.2.2.1]; exact hWF.2.2.2), hWF.2.2.1]
  simp only [normalizeGraphModel, buildSuccessGraph]
  rw [filterMap_eq_self_of hres, filterMap_eq_self_of hedg]

theorem applyEditAction_rename (rs : List ResourceNode) (es : List DependencyEdge)
    (intent : EditIntent) (nsel : Option SelectionPayload) :
    applyEditAction "rename_resource" rs es intent nsel =
      actionRenameResource rs es (resolveSymbolicName intent nsel) intent
        { action := "rename_resource" } := by
  unfold applyEditAction
  rw [if_neg (by decide), if_neg (by decide), if_neg (by decide), if_pos rfl]

theorem applyIntent_rename_eq {G : GraphModel} {oldN newN : String}
    (hnorm : normalizeGraphModel G = G) (hstatus : G.status = "success")
    (holdSN : strippedNonempty oldN) (hnewSN : strippedNonempty newN)
    (holdmem : oldN ∈ symbolsOf G.resources)
    (hfresh : newN ∉ symbolsOf G.resources) :
    applyGraphEditIntent G (renameIntent oldN newN) none =
      (buildSuccessGraph "rename_resource"
        (G.resources.map (fun r =>
          if r.symbolicName == oldN then { r with symbolicName := newN } else r))
        (G.edges.map (renameEdgeEndpoints oldN newN)),
       { action := "rename_resource", symbolicName := some oldN,
         newSymbolicName := some newN }, none) := by
  have hact : optNonblank (renameIntent oldN newN).action = some "rename_resource" := rfl
  have hstatus2 : (normalizeGraphModel G).status = "success" := by
    rw [hnorm]
    exact hstatus
  rw [applyIntent_reduce hact hstatus2, hnorm]
  have hlow : lowerStr (pystrip "rename_resource") = "rename_resource" := rfl
  rw [hlow, applyEditAction_rename]
  have hres : resolveSymbolicName (renameIntent oldN newN)
      (normalizeSelectedComponent none) = some oldN := by
    simp [resolveSymbolicName, renameIntent, normalizeSelectedComponent, optNonblank,
      holdSN.1, holdSN.2]
  rw [hres]
  unfold actionRenameResource
  have hnew : optNonblank (renameIntent oldN newN).newSymbolicName = some newN := by
    simp [renameIntent, optNonblank, hnewSN.1, hnewSN.2]
  rw [hnew]
  dsimp only []
  have hc1 : ¬(G.resources.any (fun r =>
      r.symbolicName == pystrip newN && r.symbolicName != oldN) = true) := by
    intro hc
    obtain ⟨r, hr, hb⟩ := List.any_eq_true.mp hc
    simp only [Bool.and_eq_true, beq_iff_eq, hnewSN.1] at hb
    exact hfresh (List.mem_map.mpr ⟨r, hr, hb.1⟩)
  rw [if_neg hc1]
  have hc2 : (G.resources.any (fun r => r.symbolicName == oldN)) = true := by
    obtain ⟨r, hr, hname⟩ := List.mem_map.mp holdmem
    exact List.any_eq_true.mpr ⟨r, hr, beq_iff_eq.mpr hname⟩
  rw [if_neg (by rw [hc2]; decide)]
  rw [hnewSN.1]

theorem renameEdgeEndpoints_kind (oldName newName : String) (e : DependencyEdge) :
    (renameEdgeEndpoints oldName newName e).kind = e.kind := by
  obtain ⟨f, t, k⟩ := e
  by_cases h1 : f == oldName <;> by_cases h2 : t == oldName <;>
    simp [renameEdgeEndpoints, h1, h2]

theorem renameEdge_WF {oldName newName : String} (hnew : strippedNonempty newName)
    {e : DependencyEdge} (hWF : EdgeWF e) :
    EdgeWF (renameEdgeEndpoints oldName newName e) := by
  refine ⟨?_, ?_, ?_⟩
  · rw [renameEdgeEndpoints_fromName]
    split
    · exact hnew
    · exact hWF.1
  · rw [renameEdgeEndpoints_toName]
    split
    · exact hnew
    · exact hWF.2.1
  · rw [renameEdgeEndpoints_kind]
    exact hWF.2.2

theorem subst_subst_names {oldName newName : String} (hne : oldName ≠ newName)
    {names : List String} (hnonew : ∀ x ∈ names, x ≠ newName) :
    (names.map (fun x => if x = oldName then newName else x)).map
      (fun x => if x = newName then oldName else x) = names := by
  rw [List.map_map]
  have heq : ∀ x ∈ names,
      ((fun x => if x = newName then oldName else x) ∘
        (fun x => if x = oldName then newName else x)) x = id x := by
    intro x hx
    by_cases h : x = oldName
    · simp [Function.comp, h]
    · simp [Function.comp, h, hnonew x hx]
  rw [List.map_congr_left heq, List.map_id]

theorem valid_unresolved_eq {G : GraphModel} (hnorm : normalizeGraphModel G = G) :
    G.unresolvedDependencies = unresolvedOf G.resources G.edges := by
  have hR : G.resources.filterMap normalizeResource = G.resources := by
    simpa [normalizeGraphModel] using congrArg GraphModel.resources hnorm
  have hE : G.edges.filterMap normalizeEdge = G.edges := by
    simpa [normalizeGraphModel] using congrArg GraphModel.edges hnorm
  have hU := congrArg GraphModel.unresolvedDependencies hnorm
  rw [← hU]
  simp only [normalizeGraphModel]
  rw [hR, hE]

/-- Updating every `dependsOn` leaves the symbolic names unchanged. -/
theorem symbolsOf_map_syncUpd (rs : List ResourceNode) (es : List DependencyEdge) :
    symbolsOf (rs.map (fun r =>
      { r with dependsOn := syncedDependsOn r.symbolicName es })) = symbolsOf rs := by
  simp only [symbolsOf, List.map_map]
  rfl

/-! ## Claim C7 -/

/-- Counterexample to C7 as stated: `danglingRenameGraph` is a valid graph
containing resource `stg` and no resource named `storage`, yet `storage`
occurs as the source of a dangling edge.  Renaming `stg` to `storage` merges
that edge with the renamed `stg -> web` edge (deduplication keeps one copy),
so renaming back yields a graph with one edge where the original had two: the
round trip is not an equivalence up to `dependsOn` ordering. -/
theorem c7_rename_roundtrip_counterexample :
    ValidGraph danglingRenameGraph ∧
    "stg" ∈ symbolsOf danglingRenameGraph.resources ∧
    strippedNonempty "storage" ∧
    "storage" ∉ symbolsOf danglingRenameGraph.resources ∧
    (applyGraphEditIntent danglingRenameGraph
      (renameIntent "stg" "storage") none).2.2 = none ∧
    (applyGraphEditIntent
        (applyGraphEditIntent danglingRenameGraph (renameIntent "stg" "storage") none).1
        (renameIntent "storage" "stg") none).2.2 = none ∧
    ¬ GraphEquivUpToDependsOnOrder
        (applyGraphEditIntent
          (applyGraphEditIntent danglingRenameGraph
            (renameIntent "stg" "storage") none).1
          (renameIntent "storage" "stg") none).1 danglingRenameGraph := by
  refine ⟨by decide, by decide, by decide, by decide, by decide, by decide, ?_⟩
  intro h
  have hE := h.2.2.1
  revert hE
  decide

/-- C7, amended with the missing hypothesis that the fresh name occurs on no
edge endpoint: for every valid graph `G` containing a resource named `oldN`,
and every well-formed fresh name `newN` naming no resource of `G` and
appearing as neither endpoint of any edge of `G`, renaming `oldN` to `newN`
and then back yields, without error, a graph equal to `G` up to the list
ordering of the `dependsOn` list of each resource. -/
theorem c7_rename_roundtrip_amended (G : GraphModel) (oldN newN : String)
    (hvalid : ValidGraph G)
    (hold : oldN ∈ symbolsOf G.resources)
    (hnewSN : strippedNonempty newN)
    (hfresh : newN ∉ symbolsOf G.resources)
    (hnoedge : ∀ e ∈ G.edges, e.fromName ≠ newN ∧ e.toName ≠ newN) :
    (applyGraphEditIntent G (renameIntent oldN newN) none).2.2 = none ∧
    (applyGraphEditIntent (applyGraphEditIntent G (renameIntent oldN newN) none).1
        (renameIntent newN oldN) none).2.2 = none ∧
    GraphEquivUpToDependsOnOrder
      (applyGraphEditIntent (applyGraphEditIntent G (renameIntent oldN newN) none).1
        (renameIntent newN oldN) none).1 G := by
  obtain ⟨hVnorm, hVstat, hVnodup, hVdedup, hVdeps⟩ := hvalid
  have hresWF : ∀ r ∈ G.resources,
      strippedNonempty r.symbolicName ∧ strippedNonempty r.resourceType := by
    have h := normalize_resources_WF G
    rw [hVnorm] at h
    exact h
  have hedgeWF : ∀ e ∈ G.edges, EdgeWF e := by
    have h := normalize_edges_WF G
    rw [hVnorm] at h
    exact h
  have holdSN : strippedNonempty oldN := by
    obtain ⟨r, hr, hname⟩ := List.mem_map.mp hold
    rw [← hname]
    exact (hresWF r hr).1
  have hne : oldN ≠ newN := fun h => hfresh (h ▸ hold)
  have hkeys : edgeKeysNodup G.edges := by
    have h := edgeKeysNodup_dedupeEdges G.edges
    rw [hVdedup] at h
    exact h
  have eq1 := applyIntent_rename_eq hVnorm hVstat holdSN hnewSN hold hfresh
  -- facts about the intermediate graph
  have hnoedge1 : ∀ e ∈ G.edges.map (renameEdgeEndpoints oldN newN),
      e.fromName ≠ oldN ∧ e.toName ≠ oldN := by
    intro e2 he2
    obtain ⟨e, he, rfl⟩ := List.mem_map.mp he2
    rw [renameEdgeEndpoints_fromName, renameEdgeEndpoints_toName]
    constructor
    · split
      · exact Ne.symm hne
      · rename_i hbe
        exact fun hc => hbe (beq_iff_eq.mpr hc)
    · split
      · exact Ne.symm hne
      · rename_i hbe
        exact fun hc => hbe (beq_iff_eq.mpr hc)
  have hkeys1 : edgeKeysNodup (G.edges.map (renameEdgeEndpoints oldN newN)) :=
    edgeKeysNodup_map_rename hkeys hnoedge
  have hesWF1 : ∀ e ∈ G.edges.map (renameEdgeEndpoints oldN newN), EdgeWF e := by
    intro e2 he2
    obtain ⟨e, he, rfl⟩ := List.mem_map.mp he2
    exact renameEdge_WF hnewSN (hedgeWF e he)
  have hrsWF1 : ∀ r ∈ G.resources.map (fun r =>
      if r.symbolicName == oldN then { r with symbolicName := newN } else r),
      strippedNonempty r.symbolicName ∧ strippedNonempty r.resourceType := by
    intro r2 hr2
    obtain ⟨r, hr, rfl⟩ := List.mem_map.mp hr2
    split
    · exact ⟨hnewSN, (hresWF r hr).2⟩
    · exact hresWF r hr
  have hsym1 : symbolsOf (G.resources.map (fun r =>
      if r.symbolicName == oldN then { r with symbolicName := newN } else r)) =
      (symbolsOf G.resources).map (fun x => if x = oldN then newN else x) :=
    symbols_map_rename G.resources oldN newN
  have hnonew : ∀ x ∈ symbolsOf G.resources, x ≠ newN :=
    fun x hx hc => hfresh (hc ▸ hx)
  have hnodup1 : (symbolsOf (G.resources.map (fun r =>
      if r.symbolicName == oldN then { r with symbolicName := newN } else r))).Nodup := by
    rw [hsym1]
    exact nodup_subst_names hVnodup (fun x hx h => hnonew x hx h.1)
  have hdedup1 : dedupeEdges (G.edges.map (renameEdgeEndpoints oldN newN)) =
      G.edges.map (renameEdgeEndpoints oldN newN) := dedupeEdges_eq_self hkeys1
  have hG1res : (buildSuccessGraph "rename_resource"
      (G.resources.map (fun r =>
        if r.symbolicName == oldN then { r with symbolicName := newN } else r))
      (G.edges.map (renameEdgeEndpoints oldN newN))).resources =
      syncResourceDependencies
        (G.resources.map (fun r =>
          if r.symbolicName == oldN then { r with symbolicName := newN } else r))
        (G.edges.map (renameEdgeEndpoints oldN newN)) := by
    simp only [buildSuccessGraph]
    rw [hdedup1]
  have hG1edges : (buildSuccessGraph "rename_resource"
      (G.resources.map (fun r =>
        if r.symbolicName == oldN then { r with symbolicName := newN } else r))
      (G.edges.map (renameEdgeEndpoints oldN newN))).edges =
      G.edges.map (renameEdgeEndpoints oldN newN) := by
    simp only [buildSuccessGraph]
    rw [hdedup1]
  have hnormG1 : normalizeGraphModel (buildSuccessGraph "rename_resource"
      (G.resources.map (fun r =>
        if r.symbolicName == oldN then { r with symbolicName := newN } else r))
      (G.edges.map (renameEdgeEndpoints oldN newN))) =
      buildSuccessGraph "rename_resource"
        (G.resources.map (fun r =>
          if r.symbolicName == oldN then { r with symbolicName := newN } else r))
        (G.edges.map (renameEdgeEndpoints oldN newN)) :=
    buildSuccessGraph_norm_fixed hrsWF1 hesWF1
  have hsymG1 : symbolsOf (buildSuccessGraph "rename_resource"
      (G.resources.map (fun r =>
        if r.symbolicName == oldN then { r with symbolicName := newN } else r))
      (G.edges.map (renameEdgeEndpoints oldN newN))).resources =
      (symbolsOf G.resources).map (fun x => if x = oldN then newN else x) := by
    rw [hG1res, sync_symbols, hsym1]
  have hnewmemG1 : newN ∈ symbolsOf (buildSuccessGraph "rename_resource"
      (G.resources.map (fun r =>
        if r.symbolicName == oldN then { r with symbolicName := newN } else r))
      (G.edges.map (renameEdgeEndpoints oldN newN))).resources := by
    rw [hsymG1]
    exact List.mem_map.mpr ⟨oldN, hold, by simp⟩
  have holdnotG1 : oldN ∉ symbolsOf (buildSuccessGraph "rename_resource"
      (G.resources.map (fun r =>
        if r.symbolicName == oldN then { r with symbolicName := newN } else r))
      (G.edges.map (renameEdgeEndpoints oldN newN))).resources := by
    rw [hsymG1]
    intro hmem
    obtain ⟨x, hx, hxe⟩ := List.mem_map.mp hmem
    by_cases h : x = oldN
    · rw [if_pos h] at hxe
      exact hne hxe.symm
    · rw [if_neg h] at hxe
      exact h hxe
  have eq2 := applyIntent_rename_eq hnormG1 rfl hnewSN holdSN hnewmemG1 holdnotG1
  refine ⟨by rw [eq1], by rw [eq1, eq2], ?_⟩
  rw [eq1]
  dsimp only []
  rw [eq2]
  dsimp only []
  rw [hG1edges, hG1res]
  rw [map_rename_rename hne hnoedge]
  rw [sync_of_nodup (G.edges.map (renameEdgeEndpoints oldN newN)) hnodup1]
  simp only [buildSuccessGraph]
  rw [hVdedup]
  rw [sync_of_nodup G.edges (by
    rw [symbols_map_rename, symbolsOf_map_syncUpd, hsym1, subst_subst_names hne hnonew]
    exact hVnodup)]
  have hfromWF : ∀ e ∈ G.edges, strippedNonempty e.fromName :=
    fun e he => (hedgeWF e he).1
  refine ⟨hVstat.symm, ?_, rfl, ?_⟩
  · -- Forall₂ over resources
    rw [List.map_map, List.map_map, List.map_map]
    rw [List.forall₂_map_left_iff, List.forall₂_same]
    intro r hr
    have hrnew : r.symbolicName ≠ newN := hnonew _ (List.mem_map.mpr ⟨r, hr, rfl⟩)
    have hperm : (syncedDependsOn r.symbolicName G.edges).Perm r.dependsOn := by
      rw [syncedDependsOn_eq hfromWF]
      refine (List.perm_ext_iff_of_nodup (nodup_sortedDistinct _) (hVdeps r hr).1).mpr ?_
      intro a
      rw [mem_sortedDistinct]
      exact ⟨(hVdeps r hr).2.2 a, (hVdeps r hr).2.1 a⟩
    dsimp only [Function.comp]
    by_cases hcase : r.symbolicName = oldN
    · simp only [hcase, beq_self_eq_true, if_true, beq_iff_eq, ite_true]
      refine ⟨trivial, trivial, ?_⟩
      rw [← hcase]
      exact hperm
    · simp only [beq_iff_eq, hcase, if_false, hrnew, ite_false]
      exact ⟨trivial, trivial, hperm⟩
  · -- unresolvedDependencies
    rw [valid_unresolved_eq hVnorm]
    refine unresolvedOf_congr ?_ (fun x => Iff.rfl)
    rw [symbolsOf_map_syncUpd, symbols_map_rename, symbolsOf_map_syncUpd, hsym1,
      subst_subst_names hne hnonew]

/-- Witness for the amended C7 at a concrete input: the round trip
`stg -> storage -> stg` on `renameWitnessGraph` succeeds at both steps and
returns a graph equivalent to the input up to `dependsOn` ordering. -/
theorem c7_rename_roundtrip_amended_witness :
    (applyGraphEditIntent renameWitnessGraph (renameIntent "stg" "storage") none).2.2
      = none ∧
    (applyGraphEditIntent
        (applyGraphEditIntent renameWitnessGraph (renameIntent "stg" "storage") none).1
        (renameIntent "storage" "stg") none).2.2 = none ∧
    GraphEquivUpToDependsOnOrder
      (applyGraphEditIntent
        (applyGraphEditIntent renameWitnessGraph (renameIntent "stg" "storage") none).1
        (renameIntent "storage" "stg") none).1 renameWitnessGraph :=
  c7_rename_roundtrip_amended renameWitnessGraph "stg" "storage" (by decide) (by decide)
    (by decide) (by decide) (by decide)
